import Mathlib

/-!
# querytostruct: binding parsed query values onto the fields of a struct

A shallow embedding of `Unmarshal` and `setVal` (querytostruct.go).

* Go values are a datatype `Value`; every value carries what the program reads
  of its type through reflection (its kind, and for a slice its element type).
* A struct value is the list of its fields in declaration order, each with the
  static information `reflect.StructField` gives (name, exportedness, tag).
* `url.Values` (a Go map from string to []string) is a function from keys to
  optional value lists.
* The in-place mutation of the target is explicit state passing: `Unmarshal`
  returns the target as it is left by the call, next to the two Go results.
* Go strings are modelled by Lean strings (the valid UTF-8 ones); the only
  byte-level operation of the program, the copy into a []byte, uses the UTF-8
  encoding.
* `strconv.ParseFloat` and the float64 to float32 conversion are library code
  on floating point numbers; they are a parameter (`FloatOps`) of the model.
* Arrays, channels, functions, complex numbers and unsafe pointers are not
  represented as values; for the program they are in the same `default` branch
  as maps, pointers, structs and interfaces, which are represented.
-/

namespace Querytostruct

/-! ## Kinds, types and values -/

/-- The enumeration reflect.Kind. -/
inductive Kind where
  | Invalid | Bool
  | Int | Int8 | Int16 | Int32 | Int64
  | Uint | Uint8 | Uint16 | Uint32 | Uint64 | Uintptr
  | Float32 | Float64 | Complex64 | Complex128
  | Array | Chan | Func | Interface | Map | Ptr | Slice | String | Struct
  | UnsafePointer
  deriving DecidableEq, Repr

/-- The signed integer types. -/
inductive IntKind where
  | Int | Int8 | Int16 | Int32 | Int64
  deriving DecidableEq, Repr

/-- The unsigned integer types. -/
inductive UintKind where
  | Uint | Uint8 | Uint16 | Uint32 | Uint64 | Uintptr
  deriving DecidableEq, Repr

/-- The floating point types. -/
inductive FloatKind where
  | Float32 | Float64
  deriving DecidableEq, Repr

/-- Size in bits of int and uint (strconv.IntSize), on a 64-bit platform. -/
def intSize : Nat := 64

/-- Size in bits of a signed integer type. -/
def IntKind.bits : IntKind → Nat
  | .Int => intSize
  | .Int8 => 8
  | .Int16 => 16
  | .Int32 => 32
  | .Int64 => 64

/-- Size in bits of an unsigned integer type. -/
def UintKind.bits : UintKind → Nat
  | .Uint => intSize
  | .Uint8 => 8
  | .Uint16 => 16
  | .Uint32 => 32
  | .Uint64 => 64
  | .Uintptr => intSize

/-- A struct tag as reflect.StructTag reads it: the conventional
`name:"value"` pairs, in the order they are written. -/
abbrev StructTag := List (String × String)

/-- The method StructTag.Get: the value of the first pair named `key`, and the empty
string when there is none. -/
def StructTag.Get : StructTag → String → String
  | [], _ => ""
  | (name, value) :: rest, key => if name = key then value else StructTag.Get rest key

/-- The static part of a struct field (reflect.StructField): its name, whether
it is exported (PkgPath is empty), and its tag. -/
structure FieldInfo where
  Name : String
  exported : Bool
  Tag : StructTag
  deriving DecidableEq, Repr

/-- Go types, as far as the program looks at them. -/
inductive GoType where
  | bool
  | int (k : IntKind)
  | uint (k : UintKind)
  | float (k : FloatKind)
  | string
  | slice (elem : GoType)
  | ptr (elem : GoType)
  | map (key elem : GoType)
  | iface
  | struct (fields : List (FieldInfo × GoType))

/-- Go values. A slice, a map, a pointer and an interface value may be nil
(`none`). Floating point numbers are their IEEE-754 bits. -/
inductive Value where
  | bool (b : Bool)
  | int (k : IntKind) (v : Int)
  | uint (k : UintKind) (v : Nat)
  | float (k : FloatKind) (bits : Nat)
  | string (s : String)
  | slice (elem : GoType) (xs : Option (List Value))
  | ptr (elem : GoType) (target : Option Value)
  | map (key elem : GoType) (entries : Option (List (Value × Value)))
  | iface (dyn : Option Value)
  | struct (fields : List (FieldInfo × Value))

/-- The kind of a type. -/
def GoType.Kind : GoType → Kind
  | .bool => .Bool
  | .int .Int => .Int
  | .int .Int8 => .Int8
  | .int .Int16 => .Int16
  | .int .Int32 => .Int32
  | .int .Int64 => .Int64
  | .uint .Uint => .Uint
  | .uint .Uint8 => .Uint8
  | .uint .Uint16 => .Uint16
  | .uint .Uint32 => .Uint32
  | .uint .Uint64 => .Uint64
  | .uint .Uintptr => .Uintptr
  | .float .Float32 => .Float32
  | .float .Float64 => .Float64
  | .string => .String
  | .slice _ => .Slice
  | .ptr _ => .Ptr
  | .map _ _ => .Map
  | .iface => .Interface
  | .struct _ => .Struct

/-- The kind of a value (of a field, or of what an interface argument holds). -/
def Value.Kind : Value → Kind
  | .bool _ => .Bool
  | .int k _ => (GoType.int k).Kind
  | .uint k _ => (GoType.uint k).Kind
  | .float k _ => (GoType.float k).Kind
  | .string _ => .String
  | .slice _ _ => .Slice
  | .ptr _ _ => .Ptr
  | .map _ _ _ => .Map
  | .iface _ => .Interface
  | .struct _ => .Struct

mutual
/-- The zero value of a type, which is what reflect.MakeSlice fills a new slice with. -/
def zero : GoType → Value
  | .bool => .bool false
  | .int k => .int k 0
  | .uint k => .uint k 0
  | .float k => .float k 0
  | .string => .string ""
  | .slice e => .slice e none
  | .ptr e => .ptr e none
  | .map k e => .map k e none
  | .iface => .iface none
  | .struct fs => .struct (zeroFields fs)
/-- The fields of the zero value of a struct type. -/
def zeroFields : List (FieldInfo × GoType) → List (FieldInfo × Value)
  | [] => []
  | (i, t) :: rest => (i, zero t) :: zeroFields rest
end

/-! ## The library functions the program calls -/

/-- The body of the digit loop of strconv.ParseUint in base 10: the number the
digits read so far (`n`) and the remaining characters denote, and `none` at a
character that is not a decimal digit. -/
def digitsLoop : List Char → Nat → Option Nat
  | [], n => some n
  | c :: cs, n =>
    if '0' ≤ c ∧ c ≤ '9' then digitsLoop cs (n * 10 + (c.toNat - '0'.toNat)) else none

/-- The call strconv.ParseUint(s, 10, bitSize), `some v` when the error is nil: `s` is
a non-empty run of decimal digits (no sign, no underscore) whose value fits
in the size; bitSize 0 stands for the size of uint. -/
def ParseUint (s : String) (bitSize : Nat) : Option Nat :=
  if s.data = [] then none
  else
    match digitsLoop s.data 0 with
    | none => none
    | some n =>
      let bits := if bitSize = 0 then intSize else bitSize
      if n < 2 ^ bits then some n else none

/-- The call strconv.ParseInt(s, 10, bitSize), `some v` when the error is nil: an
optional sign, then what ParseUint reads, within the signed range of the
size; bitSize 0 stands for the size of int. -/
def ParseInt (s : String) (bitSize : Nat) : Option Int :=
  match s.data with
  | [] => none
  | c :: cs =>
    let neg := decide (c = '-')
    let body := if c = '+' ∨ c = '-' then cs else c :: cs
    if body = [] then none
    else
      match digitsLoop body 0 with
      | none => none
      | some un =>
        let bits := if bitSize = 0 then intSize else bitSize
        let cutoff := 2 ^ (bits - 1)
        if neg then
          if un > cutoff then none else some (-(un : Int))
        else
          if un ≥ cutoff then none else some (un : Int)

/-- The call strconv.ParseBool(s), `some b` when the error is nil. With an error the
boolean ParseBool returns is false. -/
def ParseBool (s : String) : Option Bool :=
  if s = "1" ∨ s = "t" ∨ s = "T" ∨ s = "TRUE" ∨ s = "true" ∨ s = "True" then some true
  else if s = "0" ∨ s = "f" ∨ s = "F" ∨ s = "FALSE" ∨ s = "false" ∨ s = "False" then
    some false
  else none

/-- The floating point library, a parameter of the model: `ParseFloat s` is
strconv.ParseFloat(s, 0), the bits of the float64 read when the error is nil;
`toFloat32` is the conversion float32(x) that SetFloat applies for a float32,
on the bits. -/
structure FloatOps where
  ParseFloat : String → Option Nat
  toFloat32 : Nat → Nat

/-- The call strings.Split(s, ",") on the characters of s: the pieces between the
commas; `cur` is the piece being read, reversed. -/
def splitLoop : List Char → List Char → List String
  | [], cur => [String.mk cur.reverse]
  | c :: cs, cur =>
    if c = ',' then String.mk cur.reverse :: splitLoop cs [] else splitLoop cs (c :: cur)

/-- The call strings.Split(s, ","). It never returns an empty list. -/
def Split (s : String) : List String := splitLoop s.data []

/-- The type url.Values, map[string][]string: a key is absent (`none`) or has a list of
values. -/
abbrev Values := String → Option (List String)

/-- The method Values.Get: the first value of the key, the empty string when there is none. -/
def Values.Get (v : Values) (key : String) : String :=
  match v key with
  | some (x :: _) => x
  | _ => ""

/-- The empty url.Values. -/
def Values.empty : Values := fun _ => none

/-- The method Values.Add: appends the value to the list of the key. -/
def Values.Add (v : Values) (key value : String) : Values :=
  fun k => if k = key then some ((v k).getD [] ++ [value]) else v k

/-- The bytes of a string, as []byte(s) gives them, each a uint8 value. -/
def bytesOf (s : String) : List Value :=
  s.toUTF8.data.toList.map (fun b => Value.uint UintKind.Uint8 b.toNat)

/-! ## setVal and Unmarshal -/

/-- The conversion int64 to a signed type of `bits` bits that SetInt applies: the
value modulo 2^bits, in the signed range. -/
def wrapInt (bits : Nat) (x : Int) : Int :=
  (x + 2 ^ (bits - 1)) % 2 ^ bits - 2 ^ (bits - 1)

/-- The conversion uint64 to an unsigned type of `bits` bits that SetUint applies. -/
def wrapUint (bits : Nat) (x : Nat) : Nat := x % 2 ^ bits

/-- The function setVal: the value `f` after the call, and the boolean returned. -/
def setVal (fl : FloatOps) (f : Value) (val : String) : Value × Bool :=
  match f with
  -- case reflect.Int, reflect.Int8, reflect.Int16, reflect.Int32, reflect.Int64
  | .int k old =>
    match ParseInt val 0 with
    | some v => (.int k (wrapInt k.bits v), true)
    | none => (.int k old, true)
  -- case reflect.Uint, reflect.Uint8, reflect.Uint16, reflect.Uint32, reflect.Uint64
  | .uint k old =>
    if k = .Uintptr then (.uint k old, false)
    else
      match ParseUint val 0 with
      | some v => (.uint k (wrapUint k.bits v), true)
      | none => (.uint k old, true)
  -- case reflect.Float32, reflect.Float64
  | .float k old =>
    match fl.ParseFloat val with
    | some v => (.float k (if k = .Float32 then fl.toFloat32 v else v), true)
    | none => (.float k old, true)
  -- case reflect.String
  | .string _ => (.string val, true)
  -- case reflect.Bool
  | .bool _ => (.bool ((ParseBool val).getD false), true)
  -- default
  | other => (other, false)

/-- The loop `for i, v := range vals { scanned = setVal(sl.Index(i), v) }` over
the new slice, whose elements all start as `z`: the elements after the loop
and the final value of `scanned`. -/
def sliceLoop (fl : FloatOps) (z : Value) : List String → Bool → List Value × Bool
  | [], scanned => ([], scanned)
  | v :: vs, _ =>
    let r := setVal fl z v
    let rest := sliceLoop fl z vs r.2
    (r.1 :: rest.1, rest.2)

/-- One iteration of the loop over the fields of Unmarshal, for the field `fd`
with value `f`: the value of the field and the list `fields` after it.
`canSet` is f.IsValid() && f.CanSet(). -/
def fieldStep (fl : FloatOps) (q : Values) (fieldTag : String) (canSet : Bool)
    (fd : FieldInfo) (f : Value) (fields : List String) : Value × List String :=
  if canSet then
    let tag := fd.Tag.Get fieldTag
    if tag = "" ∨ tag = "-" then (f, fields)
    else
      let tag := (Split tag).headD ""
      match q tag with
      | none => (f, fields)
      | some vals =>
        match f with
        | .slice elem _ =>
          if elem.Kind = Kind.Uint8 then
            (.slice elem (some (bytesOf (q.Get tag))), fields)
          else
            let r := sliceLoop fl (zero elem) vals false
            (.slice elem (some r.1), if r.2 then fields ++ [tag] else fields)
        | _ =>
          let r := setVal fl f (q.Get tag)
          (r.1, if r.2 then fields ++ [tag] else fields)
  else (f, fields)

/-- The loop over the fields of the struct, in declaration order. `addr` says
whether the struct is addressable; an exported field of an addressable struct
can be set. Returns the fields and the list `fields` after the loop. -/
def fieldLoop (fl : FloatOps) (q : Values) (fieldTag : String) (addr : Bool) :
    List (FieldInfo × Value) → List String → List (FieldInfo × Value) × List String
  | [], fields => ([], fields)
  | (fd, f) :: rest, fields =>
    let r := fieldStep fl q fieldTag (addr && fd.exported) fd f fields
    let rs := fieldLoop fl q fieldTag addr rest r.2
    ((fd, r.1) :: rs.1, rs.2)

/-- The error Unmarshal returns (`%T` of a reflect.Value prints its type). -/
def notStructError : String :=
  "Failed to encode form values to struct. Non struct type: reflect.Value"

/-- What a call of Unmarshal gives: the list of fields and the error it
returns, and the target `obj` as the call leaves it. -/
structure Result where
  fields : List String
  err : Option String
  obj : Value

/-- A reflect.Value, as far as the program uses it: the Go value it stands for
(`none` for the zero reflect.Value, whose kind is Invalid) and whether it is
addressable. -/
structure RValue where
  val : Option Value
  addr : Bool

/-- The call reflect.ValueOf(obj) on a non-nil interface value holding `obj`: the
value is a copy and so not addressable. -/
def ValueOf (obj : Value) : RValue := { val := some obj, addr := false }

/-- The method Kind of reflect.Value. -/
def RValue.Kind (v : RValue) : Kind :=
  match v.val with
  | none => .Invalid
  | some x => x.Kind

/-- The method Elem of reflect.Value on a pointer: what it points to, addressable; the
zero reflect.Value for a nil pointer. (The program calls it on pointers only.) -/
def RValue.Elem (v : RValue) : RValue :=
  match v.val with
  | some (.ptr _ target) => { val := target, addr := true }
  | _ => v

/-- The target after the call, when the struct the call worked on is left as
`s`: behind the pointer when the target is a pointer, the copy otherwise. -/
def store (obj : Value) (s : Value) : Value :=
  match obj with
  | .ptr t _ => .ptr t (some s)
  | _ => s

/-- The function Unmarshal. `obj` is the value the interface argument holds. -/
def Unmarshal (fl : FloatOps) (q : Values) (obj : Value) (fieldTag : String) : Result :=
  let ob := ValueOf obj
  let ob := if ob.Kind = Kind.Ptr then ob.Elem else ob
  if ob.Kind ≠ Kind.Struct then
    { fields := [], err := some notStructError, obj := obj }
  else
    match ob.val with
    | some (.struct fs) =>
      -- a field can be set when the struct is addressable and the field exported
      let r := fieldLoop fl q fieldTag ob.addr fs []
      { fields := r.2, err := none, obj := store obj (.struct r.1) }
    | _ => { fields := [], err := none, obj := obj }

/-! ## Notions used to state the properties -/

/-- The binding key of a field under a tag name: the part of its annotation
before the first comma. -/
def bindingKey (fd : FieldInfo) (fieldTag : String) : String :=
  (Split (fd.Tag.Get fieldTag)).headD ""

/-- The fields of the struct a target is or points to (one pointer level). -/
def structFields : Value → Option (List (FieldInfo × Value))
  | .struct fs => some fs
  | .ptr _ (some (.struct fs)) => some fs
  | _ => none

/-- The value of the i-th field of the struct a target is or points to. -/
def fieldOf (obj : Value) (i : Nat) : Option Value :=
  match structFields obj with
  | some fs => (fs[i]?).map Prod.snd
  | none => none

/-- The conversion table of the specification for the scalar kinds without
floating point: the value of type `t` a source string converts to, the zero
value of the type when the string does not parse. -/
def scalarConv (t : GoType) (s : String) : Value :=
  match t with
  | .int k =>
    match ParseInt s 0 with
    | some v => .int k (wrapInt k.bits v)
    | none => .int k 0
  | .uint k =>
    match ParseUint s 0 with
    | some v => .uint k (wrapUint k.bits v)
    | none => .uint k 0
  | .string => .string s
  | .bool => .bool (decide (ParseBool s = some true))
  | other => zero other

/-- The element types of the sequences the conversion table supports, bytes
and floating point apart: the signed integers, the unsigned integers but
uint8 (and uintptr, which setVal does not list), string and bool. -/
def supportedElem : GoType → Bool
  | .int _ => true
  | .uint k => decide (k ≠ UintKind.Uint8 ∧ k ≠ UintKind.Uintptr)
  | .string => true
  | .bool => true
  | _ => false

/-- A floating point library in which no string parses, for the examples, none
of which has a field of a floating point type. -/
def noFloat : FloatOps := { ParseFloat := fun _ => none, toFloat32 := fun b => b }

/-- A target with one int field, BadNum, holding 7, behind a pointer. -/
def badNumTarget : Value :=
  .ptr (.struct [({ Name := "BadNum", exported := true, Tag := [("url", "badnum")] }, .int .Int)])
    (some (.struct
      [({ Name := "BadNum", exported := true, Tag := [("url", "badnum")] }, .int .Int 7)]))

/-- A target with one []int field, BadNumSlice, holding [7], behind a pointer. -/
def badNumSliceTarget : Value :=
  .ptr (.struct
      [({ Name := "BadNumSlice", exported := true, Tag := [("url", "badnumslice")] },
        .slice (.int .Int))])
    (some (.struct
      [({ Name := "BadNumSlice", exported := true, Tag := [("url", "badnumslice")] },
        .slice (.int .Int) (some [.int .Int 7]))]))

/-- A target with one []byte field, Bytes, holding one byte, behind a pointer. -/
def bytesTarget : Value :=
  .ptr (.struct
      [({ Name := "Bytes", exported := true, Tag := [("url", "bytes")] }, .slice (.uint .Uint8))])
    (some (.struct
      [({ Name := "Bytes", exported := true, Tag := [("url", "bytes")] },
        .slice (.uint .Uint8) (some [.uint .Uint8 1]))]))

/-- A target with one string field, Str1, holding "old", behind a pointer. -/
def str1Target : Value :=
  .ptr (.struct [({ Name := "Str1", exported := true, Tag := [("url", "str1")] }, .string)])
    (some (.struct
      [({ Name := "Str1", exported := true, Tag := [("url", "str1")] }, .string "old")]))

/-- A target with a []byte field Bytes and a []string field Strings, both
nil, behind a pointer. -/
def bytesStringsTarget : Value :=
  .ptr (.struct [])
    (some (.struct
      [({ Name := "Bytes", exported := true, Tag := [("url", "bytes")] },
          .slice (.uint .Uint8) none),
        ({ Name := "Strings", exported := true, Tag := [("url", "str")] },
          .slice .string none)]))

/-- A target with one []int field, NonExistentInts, holding [7], behind a
pointer. -/
def nonExistentTarget : Value :=
  .ptr (.struct [])
    (some (.struct
      [({ Name := "NonExistentInts", exported := true, Tag := [("url", "nonint")] },
        .slice (.int .Int) (some [.int .Int 7]))]))

/-- A target with the fields Str1 (bound to str1), StrBlock (annotation "-",
holding "old") and Int1 (bound to int1), behind a pointer. -/
def blockTarget : Value :=
  .ptr (.struct [])
    (some (.struct
      [({ Name := "Str1", exported := true, Tag := [("url", "str1")] }, .string ""),
        ({ Name := "StrBlock", exported := true, Tag := [("url", "-")] }, .string "old"),
        ({ Name := "Int1", exported := true, Tag := [("url", "int1")] }, .int .Int 0)]))

/-- Values with the keys str1, int1, and also StrBlock, "-" and "". -/
def blockValues : Values :=
  ((((Values.empty.Add "str1" "string1").Add "StrBlock" "x").Add "-" "y").Add "" "z").Add
    "int1" "123"

/-- A target with one string field, Str, annotated "-,omitempty" and holding
"old", behind a pointer. -/
def dashTarget : Value :=
  .ptr (.struct [])
    (some (.struct
      [({ Name := "Str", exported := true, Tag := [("url", "-,omitempty")] }, .string "old")]))

/-- The record of the scenario of the specification, all fields at their zero
value, behind a pointer. -/
def scenarioTarget : Value :=
  .ptr (.struct [])
    (some (.struct
      [({ Name := "Str1", exported := true, Tag := [("url", "str1")] }, .string ""),
        ({ Name := "Strings", exported := true, Tag := [("url", "str")] }, .slice .string none),
        ({ Name := "Int1", exported := true, Tag := [("url", "int1")] }, .int .Int 0),
        ({ Name := "Bool1", exported := true, Tag := [("url", "bool1")] }, .bool false),
        ({ Name := "BadNum", exported := true, Tag := [("url", "badnum")] }, .int .Int 0)]))

/-- The values of the scenario, added in an order that is not the order of the
fields. -/
def scenarioValues : Values :=
  ((((((Values.empty.Add "badnum" "abc").Add "bool1" "true").Add "str" "str1").Add
    "int1" "123").Add "str" "str2").Add "str1" "string1").Add "str" "str3"

/-- The kinds setVal has a case for: the value is of a signed integer type, of
an unsigned integer type other than uintptr, of a floating point type, a
string or a bool. -/
def supportedScalar : Value → Bool
  | .int _ _ => true
  | .uint k _ => decide (k ≠ UintKind.Uintptr)
  | .float _ _ => true
  | .string _ => true
  | .bool _ => true
  | _ => false

/-- The literals strconv.ParseBool reads as true. -/
def trueLiterals : List String := ["1", "t", "T", "TRUE", "true", "True"]

/-- The type map[string]bool. -/
def mapStringBool : GoType := .map .string .bool

/-- A target with a field NotSupported of type map[string]bool, holding a map
with one entry, and a field Maps of type []map[string]bool, holding a
sequence of one such map, behind a pointer. -/
def notSupportedTarget : Value :=
  .ptr (.struct [])
    (some (.struct
      [({ Name := "NotSupported", exported := true, Tag := [("url", "notsupported")] },
          .map .string .bool (some [(.string "a", .bool true)])),
        ({ Name := "Maps", exported := true, Tag := [("url", "maps")] },
          .slice mapStringBool (some [.map .string .bool (some [(.string "a", .bool true)])]))]))

/-- A target with a bool field Bool1 holding true and a []bool field Bools,
behind a pointer. -/
def boolTarget : Value :=
  .ptr (.struct [])
    (some (.struct
      [({ Name := "Bool1", exported := true, Tag := [("url", "bool1")] }, .bool true),
        ({ Name := "Bools", exported := true, Tag := [("url", "bool")] }, .slice .bool none)]))

/-- Values with the key bool1 and five values of the key bool. -/
def boolValues : Values :=
  (((((Values.empty.Add "bool1" "yes").Add "bool" "true").Add "bool" "false").Add
    "bool" "f").Add "bool" "t").Add "bool" "yes"

/-- The decimal numeral with the digits `ds`, the most significant first. -/
def decimal (ds : List Nat) : String := String.mk (ds.map Nat.digitChar)

/-- The number the decimal digits `ds`, the most significant first, denote. -/
def decimalValue (ds : List Nat) : Nat := Nat.ofDigits 10 ds.reverse

/-- A target with an unexported field secret, holding "old", between two
exported fields, behind a pointer. -/
def unexportedTarget : Value :=
  .ptr (.struct [])
    (some (.struct
      [({ Name := "Str1", exported := true, Tag := [("url", "str1")] }, .string ""),
        ({ Name := "secret", exported := false, Tag := [("url", "secret")] }, .string "old"),
        ({ Name := "Int1", exported := true, Tag := [("url", "int1")] }, .int .Int 0)]))

/-- Values with the keys str1, secret and int1. -/
def unexportedValues : Values :=
  ((Values.empty.Add "str1" "string1").Add "secret" "x").Add "int1" "123"

/-- The scalar types setVal has a case for: the signed integers, the unsigned
integers but uintptr, the floating point types, string and bool. -/
def supportedType : GoType → Bool
  | .int _ => true
  | .uint k => decide (k ≠ UintKind.Uintptr)
  | .float _ => true
  | .string => true
  | .bool => true
  | _ => false

/-- Whether a field of a struct behind a pointer is reported, in the words of
the claim: it can be set, its annotation is neither empty nor "-", its binding
key is a key of the values, and it is of a supported scalar kind, or a
sequence, not of bytes, of a supported scalar element kind with at least one
value under the key. -/
def reportedField (q : Values) (fieldTag : String) (p : FieldInfo × Value) : Bool :=
  p.1.exported
    && decide (p.1.Tag.Get fieldTag ≠ "")
    && decide (p.1.Tag.Get fieldTag ≠ "-")
    && (match q (bindingKey p.1 fieldTag) with
        | none => false
        | some vals =>
          match p.2 with
          | .slice elem _ =>
            decide (elem.Kind ≠ Kind.Uint8) && supportedType elem && !vals.isEmpty
          | f => supportedScalar f)

/-- A target with two string fields bound to the same key name, a []byte field,
a []int field and a map field, behind a pointer. -/
def sharedKeyTarget : Value :=
  .ptr (.struct [])
    (some (.struct
      [({ Name := "First", exported := true, Tag := [("url", "name")] }, .string ""),
        ({ Name := "Bytes", exported := true, Tag := [("url", "bytes")] },
          .slice (.uint .Uint8) none),
        ({ Name := "Ints", exported := true, Tag := [("url", "int")] }, .slice (.int .Int) none),
        ({ Name := "NotSupported", exported := true, Tag := [("url", "notsupported")] },
          .map .string .bool none),
        ({ Name := "Second", exported := true, Tag := [("url", "name,omitempty")] },
          .string "")]))

/-- Values with the keys name, bytes and notsupported, and the key int with an
empty list of values. -/
def sharedKeyValues : Values :=
  fun k => if k = "int" then some []
    else (((Values.empty.Add "name" "n").Add "bytes" "b").Add "notsupported" "x") k

/-- What one field contributes to the returned list. -/
def stepKeys (fl : FloatOps) (q : Values) (fieldTag : String) (addr : Bool)
    (p : FieldInfo × Value) : List String :=
  (fieldStep fl q fieldTag (addr && p.1.exported) p.1 p.2 []).2

/-- The value of one field after the call. -/
def stepVal (fl : FloatOps) (q : Values) (fieldTag : String) (addr : Bool)
    (p : FieldInfo × Value) : Value :=
  (fieldStep fl q fieldTag (addr && p.1.exported) p.1 p.2 []).1

/-! ## The loop, field by field -/

theorem fieldStep_acc (fl : FloatOps) (q : Values) (fieldTag : String) (canSet : Bool)
    (fd : FieldInfo) (f : Value) (fields : List String) :
    fieldStep fl q fieldTag canSet fd f fields =
      ((fieldStep fl q fieldTag canSet fd f []).1,
        fields ++ (fieldStep fl q fieldTag canSet fd f []).2) := by
  unfold fieldStep
  repeat (first | split | simp)

theorem fieldLoop_eq (fl : FloatOps) (q : Values) (fieldTag : String) (addr : Bool)
    (fs : List (FieldInfo × Value)) (acc : List String) :
    fieldLoop fl q fieldTag addr fs acc =
      (fs.map (fun p => (p.1, stepVal fl q fieldTag addr p)),
        acc ++ fs.flatMap (stepKeys fl q fieldTag addr)) := by
  induction fs generalizing acc with
  | nil => simp [fieldLoop]
  | cons p rest ih =>
    obtain ⟨fd, f⟩ := p
    simp only [fieldLoop, ih, List.map_cons, List.flatMap_cons, stepVal, stepKeys]
    rw [fieldStep_acc]
    simp [List.append_assoc]

theorem Unmarshal_ptr (fl : FloatOps) (q : Values) (t : GoType)
    (fs : List (FieldInfo × Value)) (fieldTag : String) :
    Unmarshal fl q (.ptr t (some (.struct fs))) fieldTag =
      { fields := fs.flatMap (stepKeys fl q fieldTag true),
        err := none,
        obj := .ptr t (some (.struct (fs.map (fun p => (p.1, stepVal fl q fieldTag true p))))) } := by
  simp [Unmarshal, ValueOf, RValue.Kind, RValue.Elem, Value.Kind, store, fieldLoop_eq]

theorem Unmarshal_struct (fl : FloatOps) (q : Values)
    (fs : List (FieldInfo × Value)) (fieldTag : String) :
    Unmarshal fl q (.struct fs) fieldTag =
      { fields := fs.flatMap (stepKeys fl q fieldTag false),
        err := none,
        obj := .struct (fs.map (fun p => (p.1, stepVal fl q fieldTag false p))) } := by
  simp [Unmarshal, ValueOf, RValue.Kind, Value.Kind, store, fieldLoop_eq]

theorem fieldOf_Unmarshal_ptr (fl : FloatOps) (q : Values) (t : GoType)
    (fs : List (FieldInfo × Value)) (fieldTag : String) (i : Nat) :
    fieldOf (Unmarshal fl q (.ptr t (some (.struct fs))) fieldTag).obj i =
      (fs[i]?).map (stepVal fl q fieldTag true) := by
  simp only [Unmarshal_ptr, fieldOf, structFields, List.getElem?_map]
  cases fs[i]? <;> simp

theorem fieldOf_Unmarshal_struct (fl : FloatOps) (q : Values)
    (fs : List (FieldInfo × Value)) (fieldTag : String) (i : Nat) :
    fieldOf (Unmarshal fl q (.struct fs) fieldTag).obj i =
      (fs[i]?).map (stepVal fl q fieldTag false) := by
  simp only [Unmarshal_struct, fieldOf, structFields, List.getElem?_map]
  cases fs[i]? <;> simp

theorem mem_fields_ptr (fl : FloatOps) (q : Values) (t : GoType)
    (fs : List (FieldInfo × Value)) (fieldTag : String) (i : Nat) (p : FieldInfo × Value)
    (k : String) (hi : fs[i]? = some p) (hk : k ∈ stepKeys fl q fieldTag true p) :
    k ∈ (Unmarshal fl q (.ptr t (some (.struct fs))) fieldTag).fields := by
  simp only [Unmarshal_ptr, List.mem_flatMap]
  exact ⟨p, List.getElem?_mem hi, hk⟩

/-- A field that cannot be set keeps its value and contributes nothing. -/
theorem step_not_settable (fl : FloatOps) (q : Values) (fieldTag : String) (addr : Bool)
    (p : FieldInfo × Value) (h : (addr && p.1.exported) = false) :
    stepVal fl q fieldTag addr p = p.2 ∧ stepKeys fl q fieldTag addr p = [] := by
  simp [stepVal, stepKeys, fieldStep, h]

/-- A field whose whole annotation is empty or the sentinel keeps its value and
contributes nothing. -/
theorem step_excluded (fl : FloatOps) (q : Values) (fieldTag : String) (addr : Bool)
    (p : FieldInfo × Value) (h : p.1.Tag.Get fieldTag = "" ∨ p.1.Tag.Get fieldTag = "-") :
    stepVal fl q fieldTag addr p = p.2 ∧ stepKeys fl q fieldTag addr p = [] := by
  simp only [stepVal, stepKeys, fieldStep]
  split <;> simp [h]

/-- A field whose binding key is not a key of the values keeps its value and
contributes nothing. -/
theorem step_absent (fl : FloatOps) (q : Values) (fieldTag : String) (addr : Bool)
    (p : FieldInfo × Value) (h : q (bindingKey p.1 fieldTag) = none) :
    stepVal fl q fieldTag addr p = p.2 ∧ stepKeys fl q fieldTag addr p = [] := by
  simp only [stepVal, stepKeys, fieldStep, bindingKey] at h ⊢
  split
  · split
    · simp
    · rw [h]
      simp
  · simp

/-- The step of a field that can be set, has a binding annotation and whose
key has the values `vals`. -/
theorem fieldStep_bound (fl : FloatOps) (q : Values) (fieldTag : String)
    (fd : FieldInfo) (f : Value) (vals : List String)
    (ht1 : fd.Tag.Get fieldTag ≠ "") (ht2 : fd.Tag.Get fieldTag ≠ "-")
    (hq : q (bindingKey fd fieldTag) = some vals) :
    fieldStep fl q fieldTag true fd f [] =
      match f with
      | .slice elem _ =>
        if elem.Kind = Kind.Uint8 then
          (.slice elem (some (bytesOf (q.Get (bindingKey fd fieldTag)))), [])
        else
          (.slice elem (some (sliceLoop fl (zero elem) vals false).1),
            if (sliceLoop fl (zero elem) vals false).2 then [bindingKey fd fieldTag] else [])
      | _ =>
        ((setVal fl f (q.Get (bindingKey fd fieldTag))).1,
          if (setVal fl f (q.Get (bindingKey fd fieldTag))).2 then [bindingKey fd fieldTag]
          else []) := by
  simp only [fieldStep, bindingKey] at hq ⊢
  simp only [if_true, ht1, ht2, or_self, if_false, hq]
  cases f <;> simp

/-- What a field contributes is nothing or its binding key, which then is a
key of the values. -/
theorem stepKeys_cases (fl : FloatOps) (q : Values) (fieldTag : String) (addr : Bool)
    (p : FieldInfo × Value) :
    stepKeys fl q fieldTag addr p = [] ∨
      (stepKeys fl q fieldTag addr p = [bindingKey p.1 fieldTag]
        ∧ q (bindingKey p.1 fieldTag) ≠ none) := by
  cases hc : (addr && p.1.exported) with
  | false => exact Or.inl (step_not_settable fl q fieldTag addr p hc).2
  | true =>
    by_cases ht : p.1.Tag.Get fieldTag = "" ∨ p.1.Tag.Get fieldTag = "-"
    · exact Or.inl (step_excluded fl q fieldTag addr p ht).2
    · cases hq : q (bindingKey p.1 fieldTag) with
      | none => exact Or.inl (step_absent fl q fieldTag addr p hq).2
      | some vals =>
        have hb := fieldStep_bound fl q fieldTag p.1 p.2 vals
          (fun h => ht (Or.inl h)) (fun h => ht (Or.inr h)) hq
        simp only [stepKeys, hc, hb]
        cases p.2 <;> simp
        all_goals (split <;> simp)

/-! ## The shape gate -/

/-- C1: Unmarshal returns an error exactly when the target is neither a struct
nor a non-nil pointer to a struct; then the returned list is nil and the
target is as it was; a pointer to a map and a pointer to a pointer to a struct
give the error; whether there is an error does not depend on the values. -/
theorem C1_error_iff_not_struct (fl : FloatOps) (q : Values) (obj : Value)
    (fieldTag : String) :
    ((Unmarshal fl q obj fieldTag).err ≠ none ↔
        ¬ ((∃ fs, obj = Value.struct fs) ∨ (∃ t fs, obj = Value.ptr t (some (Value.struct fs)))))
      ∧ ((Unmarshal fl q obj fieldTag).err ≠ none →
          (Unmarshal fl q obj fieldTag).err = some notStructError
            ∧ (Unmarshal fl q obj fieldTag).fields = []
            ∧ (Unmarshal fl q obj fieldTag).obj = obj)
      ∧ (∀ t k e m, (Unmarshal fl q (Value.ptr t (some (Value.map k e m))) fieldTag).err
            = some notStructError)
      ∧ (∀ t u fs,
          (Unmarshal fl q (Value.ptr t (some (Value.ptr u (some (Value.struct fs))))) fieldTag).err
            = some notStructError)
      ∧ (∀ q2 : Values,
          (Unmarshal fl q2 obj fieldTag).err = (Unmarshal fl q obj fieldTag).err) := by
  refine ⟨?_, ?_, ?_, ?_, ?_⟩
  · cases obj with
    | ptr t target =>
      rcases target with _ | v
      · simp [Unmarshal, ValueOf, RValue.Kind, RValue.Elem, Value.Kind]
      · cases v <;> simp [Unmarshal, ValueOf, RValue.Kind, RValue.Elem, Value.Kind, GoType.Kind]
        all_goals (rename_i k _; cases k <;> simp [GoType.Kind])
    | struct fs => simp [Unmarshal_struct]
    | _ => simp [Unmarshal, ValueOf, RValue.Kind, RValue.Elem, Value.Kind, GoType.Kind]
           <;> (rename_i k _; cases k <;> simp [GoType.Kind])
  · simp only [Unmarshal]
    generalize (if (ValueOf obj).Kind = Kind.Ptr then (ValueOf obj).Elem else ValueOf obj) = ob
    by_cases hk : ob.Kind ≠ Kind.Struct
    · simp [hk]
    · rw [if_neg hk]
      split <;> simp
  · intro t k e m
    simp [Unmarshal, ValueOf, RValue.Kind, RValue.Elem, Value.Kind]
  · intro t u fs
    simp [Unmarshal, ValueOf, RValue.Kind, RValue.Elem, Value.Kind]
  · intro q2
    simp only [Unmarshal]
    generalize (if (ValueOf obj).Kind = Kind.Ptr then (ValueOf obj).Elem else ValueOf obj) = ob
    by_cases hk : ob.Kind ≠ Kind.Struct
    · simp [hk]
    · rw [if_neg hk, if_neg hk]
      split <;> rfl

/-! ## Integer fields and a value that does not parse -/

theorem Get_cons (q : Values) (key v : String) (vs : List String)
    (h : q key = some (v :: vs)) : q.Get key = v := by
  simp [Values.Get, h]

/-- The scalar step for a field that is not a slice. -/
theorem step_scalar (fl : FloatOps) (q : Values) (fieldTag : String)
    (fd : FieldInfo) (f : Value) (vals : List String)
    (hexp : fd.exported = true)
    (ht1 : fd.Tag.Get fieldTag ≠ "") (ht2 : fd.Tag.Get fieldTag ≠ "-")
    (hq : q (bindingKey fd fieldTag) = some vals)
    (hns : ∀ elem xs, f ≠ Value.slice elem xs) :
    stepVal fl q fieldTag true (fd, f) = (setVal fl f (q.Get (bindingKey fd fieldTag))).1
      ∧ stepKeys fl q fieldTag true (fd, f) =
          if (setVal fl f (q.Get (bindingKey fd fieldTag))).2 then [bindingKey fd fieldTag]
          else [] := by
  have hb := fieldStep_bound fl q fieldTag fd f vals ht1 ht2 hq
  simp only [stepVal, stepKeys, hexp, Bool.and_self, hb]
  cases f <;> simp_all

/-- The step for a slice field. -/
theorem step_slice (fl : FloatOps) (q : Values) (fieldTag : String)
    (fd : FieldInfo) (elem : GoType) (old : Option (List Value)) (vals : List String)
    (hexp : fd.exported = true)
    (ht1 : fd.Tag.Get fieldTag ≠ "") (ht2 : fd.Tag.Get fieldTag ≠ "-")
    (hq : q (bindingKey fd fieldTag) = some vals) :
    stepVal fl q fieldTag true (fd, Value.slice elem old) =
        (if elem.Kind = Kind.Uint8 then
          Value.slice elem (some (bytesOf (q.Get (bindingKey fd fieldTag))))
        else Value.slice elem (some (sliceLoop fl (zero elem) vals false).1))
      ∧ stepKeys fl q fieldTag true (fd, Value.slice elem old) =
        (if elem.Kind = Kind.Uint8 then []
        else if (sliceLoop fl (zero elem) vals false).2 then [bindingKey fd fieldTag]
        else []) := by
  have hb := fieldStep_bound fl q fieldTag fd (Value.slice elem old) vals ht1 ht2 hq
  simp only [stepVal, stepKeys, hexp, Bool.and_self, hb]
  split <;> simp

/-- C2, as the code has it: a signed or unsigned integer field that can be
set, bound to a key whose first value does not parse as an integer of its
signedness, keeps the value it held before the call (which is the zero value
of the type only when it held that), and its key is in the returned list. -/
theorem C2_parse_failure_keeps_value (fl : FloatOps) (q : Values) (t : GoType)
    (fs : List (FieldInfo × Value)) (fieldTag : String) (i : Nat)
    (fd : FieldInfo) (f : Value) (v : String) (vs : List String)
    (hi : fs[i]? = some (fd, f))
    (hexp : fd.exported = true)
    (ht1 : fd.Tag.Get fieldTag ≠ "") (ht2 : fd.Tag.Get fieldTag ≠ "-")
    (hq : q (bindingKey fd fieldTag) = some (v :: vs))
    (hf : (∃ k x, f = Value.int k x ∧ ParseInt v 0 = none)
        ∨ (∃ k x, f = Value.uint k x ∧ k ≠ UintKind.Uintptr ∧ ParseUint v 0 = none)) :
    fieldOf (Unmarshal fl q (Value.ptr t (some (Value.struct fs))) fieldTag).obj i = some f
      ∧ bindingKey fd fieldTag
          ∈ (Unmarshal fl q (Value.ptr t (some (Value.struct fs))) fieldTag).fields := by
  have hns : ∀ elem xs, f ≠ Value.slice elem xs := by
    rcases hf with ⟨k, x, rfl, _⟩ | ⟨k, x, rfl, _⟩ <;> intro _ _ h <;> cases h
  have hs := step_scalar fl q fieldTag fd f (v :: vs) hexp ht1 ht2 hq hns
  rw [Get_cons q _ v vs hq] at hs
  have hset : setVal fl f v = (f, true) := by
    rcases hf with ⟨k, x, rfl, hp⟩ | ⟨k, x, rfl, hk, hp⟩
    · simp [setVal, hp]
    · simp [setVal, hp, hk]
  rw [hset] at hs
  refine ⟨?_, ?_⟩
  · rw [fieldOf_Unmarshal_ptr, hi, Option.map_some', hs.1]
  · apply mem_fields_ptr fl q t fs fieldTag i (fd, f) _ hi
    rw [hs.2]
    simp

/-- C2 refuted as stated: an int field holding 7, bound to the key badnum
whose value is "abc", still holds 7 after the call, not the zero value 0. -/
theorem C2_counterexample :
    ParseInt "abc" 0 = none
      ∧ fieldOf (Unmarshal noFloat (Values.empty.Add "badnum" "abc") badNumTarget "url").obj 0
          = some (Value.int IntKind.Int 7)
      ∧ fieldOf (Unmarshal noFloat (Values.empty.Add "badnum" "abc") badNumTarget "url").obj 0
          ≠ some (zero (GoType.int IntKind.Int)) := by
  refine ⟨by decide, by rfl, ?_⟩
  have h : fieldOf (Unmarshal noFloat (Values.empty.Add "badnum" "abc") badNumTarget "url").obj 0
      = some (Value.int IntKind.Int 7) := by rfl
  rw [h]
  simp [zero]

/-- C2, witness: the BadNum field of the test, with the value "abc". -/
theorem C2_parse_failure_keeps_value_witness :
    fieldOf (Unmarshal noFloat (Values.empty.Add "badnum" "abc") badNumTarget "url").obj 0
        = some (Value.int IntKind.Int 7)
      ∧ bindingKey { Name := "BadNum", exported := true, Tag := [("url", "badnum")] } "url"
          ∈ (Unmarshal noFloat (Values.empty.Add "badnum" "abc") badNumTarget "url").fields :=
  C2_parse_failure_keeps_value noFloat (Values.empty.Add "badnum" "abc") _ _ "url" 0
    { Name := "BadNum", exported := true, Tag := [("url", "badnum")] } (Value.int IntKind.Int 7)
    "abc" [] (by rfl) (by rfl) (by decide) (by decide) (by rfl)
    (Or.inl ⟨IntKind.Int, 7, rfl, by decide⟩)

/-! ## Sequence fields -/

theorem setVal_zero_supported (fl : FloatOps) (elem : GoType) (v : String)
    (hel : supportedElem elem = true) :
    setVal fl (zero elem) v = (scalarConv elem v, true) := by
  cases elem with
  | int k =>
    simp only [zero, setVal, scalarConv]
    cases ParseInt v 0 <;> rfl
  | uint k =>
    have hk : k ≠ UintKind.Uintptr := by
      simp only [supportedElem, decide_eq_true_eq] at hel
      exact hel.2
    simp only [zero, setVal, scalarConv, if_neg hk]
    cases ParseUint v 0 <;> rfl
  | string => simp [zero, setVal, scalarConv]
  | bool =>
    simp only [zero, setVal, scalarConv]
    cases h : ParseBool v with
    | none => simp
    | some b => cases b <;> simp
  | _ => simp [supportedElem] at hel

theorem supportedElem_not_byte (elem : GoType) (hel : supportedElem elem = true) :
    elem.Kind ≠ Kind.Uint8 := by
  cases elem with
  | int k => cases k <;> simp [GoType.Kind]
  | uint k => cases k <;> simp [GoType.Kind, supportedElem] at hel ⊢
  | _ => simp [GoType.Kind, supportedElem] at hel ⊢

theorem sliceLoop_supported (fl : FloatOps) (elem : GoType) (hel : supportedElem elem = true)
    (vs : List String) (b : Bool) :
    sliceLoop fl (zero elem) vs b = (vs.map (scalarConv elem), b || !vs.isEmpty) := by
  induction vs generalizing b with
  | nil => simp [sliceLoop]
  | cons v rest ih =>
    simp [sliceLoop, ih, setVal_zero_supported fl elem v hel]

/-- C3: a sequence field that can be set, whose element type is a signed
integer, an unsigned integer other than a byte, string or bool, and whose key
has the values vs, is after the call the sequence of the scalar conversions
of vs, in order, whatever it held before: it has the length of vs; an element
that does not parse gives the zero value; ["1","2"] gives [1,2] and
["abc","def"] gives [0,0]. -/
theorem C3_sequence_field (fl : FloatOps) (q : Values) (t : GoType)
    (fs : List (FieldInfo × Value)) (fieldTag : String) (i : Nat)
    (fd : FieldInfo) (elem : GoType) (old : Option (List Value)) (vs : List String)
    (hi : fs[i]? = some (fd, Value.slice elem old))
    (hexp : fd.exported = true)
    (ht1 : fd.Tag.Get fieldTag ≠ "") (ht2 : fd.Tag.Get fieldTag ≠ "-")
    (hq : q (bindingKey fd fieldTag) = some vs)
    (hel : supportedElem elem = true) :
    fieldOf (Unmarshal fl q (Value.ptr t (some (Value.struct fs))) fieldTag).obj i
        = some (Value.slice elem (some (vs.map (scalarConv elem))))
      ∧ (vs.map (scalarConv elem)).length = vs.length
      ∧ (∀ (j : Nat) (v : String), vs[j]? = some v →
          (vs.map (scalarConv elem))[j]? = some (scalarConv elem v))
      ∧ (∀ k s, ParseInt s 0 = none → scalarConv (GoType.int k) s = zero (GoType.int k))
      ∧ (∀ k s, ParseUint s 0 = none → scalarConv (GoType.uint k) s = zero (GoType.uint k))
      ∧ (∀ s, ParseBool s = none → scalarConv GoType.bool s = zero GoType.bool)
      ∧ ["1", "2"].map (scalarConv (GoType.int IntKind.Int))
          = [Value.int IntKind.Int 1, Value.int IntKind.Int 2]
      ∧ ["abc", "def"].map (scalarConv (GoType.int IntKind.Int))
          = [Value.int IntKind.Int 0, Value.int IntKind.Int 0] := by
  have hs := step_slice fl q fieldTag fd elem old vs hexp ht1 ht2 hq
  rw [if_neg (supportedElem_not_byte elem hel), sliceLoop_supported fl elem hel] at hs
  refine ⟨?_, by simp, ?_, ?_, ?_, ?_, by rfl, by rfl⟩
  · rw [fieldOf_Unmarshal_ptr, hi, Option.map_some', hs.1]
  · intro j v hj
    simp [hj]
  · intro k s h
    simp [scalarConv, h, zero]
  · intro k s h
    simp [scalarConv, h, zero]
  · intro s h
    simp [scalarConv, h, zero]

/-- C3, witness: the BadNumSlice field of the test, which held [7] before. -/
theorem C3_sequence_field_witness :
    fieldOf (Unmarshal noFloat ((Values.empty.Add "badnumslice" "abc").Add "badnumslice" "def")
        badNumSliceTarget "url").obj 0
      = some (Value.slice (GoType.int IntKind.Int)
          (some [Value.int IntKind.Int 0, Value.int IntKind.Int 0])) :=
  (C3_sequence_field noFloat ((Values.empty.Add "badnumslice" "abc").Add "badnumslice" "def")
    _ _ "url" 0
    { Name := "BadNumSlice", exported := true, Tag := [("url", "badnumslice")] }
    (GoType.int IntKind.Int) (some [Value.int IntKind.Int 7]) ["abc", "def"]
    (by rfl) (by rfl) (by decide) (by decide) (by rfl) (by rfl)).1

/-! ## Byte sequences and strings -/

/-- C5: a byte-sequence field that can be set and whose key has the values
v0, v1, ... is after the call exactly the bytes of v0, as many as v0 has
bytes, whatever the later values are; with ["first","second"] it is the
bytes of "first". -/
theorem C5_bytes_first_value (fl : FloatOps) (q : Values) (t : GoType)
    (fs : List (FieldInfo × Value)) (fieldTag : String) (i : Nat)
    (fd : FieldInfo) (old : Option (List Value)) (v0 : String) (rest : List String)
    (hi : fs[i]? = some (fd, Value.slice (GoType.uint UintKind.Uint8) old))
    (hexp : fd.exported = true)
    (ht1 : fd.Tag.Get fieldTag ≠ "") (ht2 : fd.Tag.Get fieldTag ≠ "-")
    (hq : q (bindingKey fd fieldTag) = some (v0 :: rest)) :
    fieldOf (Unmarshal fl q (Value.ptr t (some (Value.struct fs))) fieldTag).obj i
        = some (Value.slice (GoType.uint UintKind.Uint8) (some (bytesOf v0)))
      ∧ (bytesOf v0).length = v0.utf8ByteSize
      ∧ bytesOf "first"
          = [Value.uint UintKind.Uint8 102, Value.uint UintKind.Uint8 105,
              Value.uint UintKind.Uint8 114, Value.uint UintKind.Uint8 115,
              Value.uint UintKind.Uint8 116] := by
  have hs := step_slice fl q fieldTag fd (GoType.uint UintKind.Uint8) old (v0 :: rest)
    hexp ht1 ht2 hq
  rw [if_pos (by rfl), Get_cons q _ v0 rest hq] at hs
  refine ⟨?_, ?_, by rfl⟩
  · rw [fieldOf_Unmarshal_ptr, hi, Option.map_some', hs.1]
  · have h := String.size_toUTF8 v0
    simpa [bytesOf, ByteArray.size] using h

/-- C5, witness: a byte field holding one byte, and the values "first",
"second". -/
theorem C5_bytes_first_value_witness :
    fieldOf (Unmarshal noFloat ((Values.empty.Add "bytes" "first").Add "bytes" "second")
        bytesTarget "url").obj 0
      = some (Value.slice (GoType.uint UintKind.Uint8) (some (bytesOf "first"))) :=
  (C5_bytes_first_value noFloat ((Values.empty.Add "bytes" "first").Add "bytes" "second")
    _ _ "url" 0 { Name := "Bytes", exported := true, Tag := [("url", "bytes")] }
    (some [Value.uint UintKind.Uint8 1]) "first" ["second"]
    (by rfl) (by rfl) (by decide) (by decide) (by rfl)).1

/-- C6: a string field that can be set and whose key has the single value v
is exactly v after the call, and its key is in the returned list. -/
theorem C6_string_round_trip (fl : FloatOps) (q : Values) (t : GoType)
    (fs : List (FieldInfo × Value)) (fieldTag : String) (i : Nat)
    (fd : FieldInfo) (old v : String)
    (hi : fs[i]? = some (fd, Value.string old))
    (hexp : fd.exported = true)
    (ht1 : fd.Tag.Get fieldTag ≠ "") (ht2 : fd.Tag.Get fieldTag ≠ "-")
    (hq : q (bindingKey fd fieldTag) = some [v]) :
    fieldOf (Unmarshal fl q (Value.ptr t (some (Value.struct fs))) fieldTag).obj i
        = some (Value.string v)
      ∧ bindingKey fd fieldTag
          ∈ (Unmarshal fl q (Value.ptr t (some (Value.struct fs))) fieldTag).fields := by
  have hs := step_scalar fl q fieldTag fd (Value.string old) [v] hexp ht1 ht2 hq
    (by intro _ _ h; cases h)
  rw [Get_cons q _ v [] hq] at hs
  have hset : setVal fl (Value.string old) v = (Value.string v, true) := by simp [setVal]
  rw [hset] at hs
  refine ⟨?_, ?_⟩
  · rw [fieldOf_Unmarshal_ptr, hi, Option.map_some', hs.1]
  · apply mem_fields_ptr fl q t fs fieldTag i (fd, Value.string old) _ hi
    rw [hs.2]
    simp

/-- C6, witness: the Str1 field of the test, with a value that has blanks and
an escape left as they are. -/
theorem C6_string_round_trip_witness :
    fieldOf (Unmarshal noFloat (Values.empty.Add "str1" " a%20b ") str1Target "url").obj 0
        = some (Value.string " a%20b ")
      ∧ bindingKey { Name := "Str1", exported := true, Tag := [("url", "str1")] } "url"
          ∈ (Unmarshal noFloat (Values.empty.Add "str1" " a%20b ") str1Target "url").fields :=
  C6_string_round_trip noFloat (Values.empty.Add "str1" " a%20b ") _ _ "url" 0
    { Name := "Str1", exported := true, Tag := [("url", "str1")] } "old" " a%20b "
    (by rfl) (by rfl) (by decide) (by decide) (by rfl)

/-- C4, the code at the failing input: with a []byte field Bytes bound to
bytes and a []string field Strings bound to str, both keys present with one
value, both fields are populated, and the returned list has str only: the
key of the byte field is not reported. -/
theorem C4_byte_field_not_reported (fl : FloatOps) :
    (Unmarshal fl ((Values.empty.Add "bytes" "manybytes").Add "str" "str1")
        bytesStringsTarget "url").fields = ["str"]
      ∧ fieldOf (Unmarshal fl ((Values.empty.Add "bytes" "manybytes").Add "str" "str1")
          bytesStringsTarget "url").obj 0
        = some (Value.slice (GoType.uint UintKind.Uint8) (some (bytesOf "manybytes")))
      ∧ fieldOf (Unmarshal fl ((Values.empty.Add "bytes" "manybytes").Add "str" "str1")
          bytesStringsTarget "url").obj 1
        = some (Value.slice GoType.string (some [Value.string "str1"])) :=
  ⟨by rfl, by rfl, by rfl⟩

/-! ## Fields that are left alone -/

theorem structFields_cases (obj : Value) (fs : List (FieldInfo × Value))
    (hs : structFields obj = some fs) :
    obj = Value.struct fs ∨ ∃ t, obj = Value.ptr t (some (Value.struct fs)) := by
  cases obj with
  | struct gs =>
    simp only [structFields, Option.some.injEq] at hs
    exact Or.inl (by rw [hs])
  | ptr t target =>
    rcases target with _ | v
    · simp [structFields] at hs
    · cases v <;> simp [structFields] at hs
      exact Or.inr ⟨t, by rw [hs]⟩
  | _ => simp [structFields] at hs

/-- C7: for a target that is a struct or points to one, a field whose binding
key is not a key of the values has after the call the value it had before,
and every entry of the returned list is a key of the values. -/
theorem C7_absent_key_frame (fl : FloatOps) (q : Values) (obj : Value) (fieldTag : String)
    (fs : List (FieldInfo × Value)) (hs : structFields obj = some fs) :
    (∀ (i : Nat) (fd : FieldInfo) (f : Value), fs[i]? = some (fd, f) →
        q (bindingKey fd fieldTag) = none →
        fieldOf (Unmarshal fl q obj fieldTag).obj i = some f)
      ∧ (∀ k, k ∈ (Unmarshal fl q obj fieldTag).fields → q k ≠ none) := by
  have key : ∀ (addr : Bool) (k : String),
      k ∈ fs.flatMap (stepKeys fl q fieldTag addr) → q k ≠ none := by
    intro addr k hk
    obtain ⟨p, _, hp⟩ := List.mem_flatMap.mp hk
    rcases stepKeys_cases fl q fieldTag addr p with h | ⟨h, hq⟩
    · simp [h] at hp
    · rw [h, List.mem_singleton] at hp
      rw [hp]
      exact hq
  rcases structFields_cases obj fs hs with rfl | ⟨t, rfl⟩
  · refine ⟨?_, ?_⟩
    · intro i fd f hi hq
      rw [fieldOf_Unmarshal_struct, hi, Option.map_some',
        (step_absent fl q fieldTag false (fd, f) hq).1]
    · intro k hk
      rw [Unmarshal_struct] at hk
      exact key false k hk
  · refine ⟨?_, ?_⟩
    · intro i fd f hi hq
      rw [fieldOf_Unmarshal_ptr, hi, Option.map_some',
        (step_absent fl q fieldTag true (fd, f) hq).1]
    · intro k hk
      rw [Unmarshal_ptr] at hk
      exact key true k hk

/-- C7, witness: the NonExistentInts field of the test, here holding [7], with
values that have the key int only. -/
theorem C7_absent_key_frame_witness :
    fieldOf (Unmarshal noFloat (Values.empty.Add "int" "456") nonExistentTarget "url").obj 0
      = some (Value.slice (GoType.int IntKind.Int) (some [Value.int IntKind.Int 7])) :=
  (C7_absent_key_frame noFloat (Values.empty.Add "int" "456") nonExistentTarget "url"
    [({ Name := "NonExistentInts", exported := true, Tag := [("url", "nonint")] },
        Value.slice (GoType.int IntKind.Int) (some [Value.int IntKind.Int 7]))]
    (by rfl)).1 0 { Name := "NonExistentInts", exported := true, Tag := [("url", "nonint")] }
    (Value.slice (GoType.int IntKind.Int) (some [Value.int IntKind.Int 7])) (by rfl) (by rfl)

theorem Get_absent (tg : StructTag) (key : String) (h : ∀ p, p ∈ tg → p.1 ≠ key) :
    StructTag.Get tg key = "" := by
  induction tg with
  | nil => rfl
  | cons p rest ih =>
    obtain ⟨name, value⟩ := p
    have hn : name ≠ key := h (name, value) (List.mem_cons_self _ _)
    simp only [StructTag.Get, if_neg hn]
    exact ih (fun p hp => h p (List.mem_cons_of_mem _ hp))

/-- A field that keeps its value and contributes nothing, at any place of a
struct: the field is unchanged and the returned list is the one of the struct
without the field. -/
theorem skipped_field (fl : FloatOps) (q : Values) (fieldTag : String)
    (pre post : List (FieldInfo × Value)) (fd : FieldInfo) (f : Value)
    (h : ∀ addr, stepVal fl q fieldTag addr (fd, f) = f ∧ stepKeys fl q fieldTag addr (fd, f) = []) :
    (∀ t, fieldOf (Unmarshal fl q (Value.ptr t (some (Value.struct (pre ++ (fd, f) :: post))))
          fieldTag).obj pre.length = some f
        ∧ (Unmarshal fl q (Value.ptr t (some (Value.struct (pre ++ (fd, f) :: post))))
            fieldTag).fields
          = (Unmarshal fl q (Value.ptr t (some (Value.struct (pre ++ post)))) fieldTag).fields)
      ∧ fieldOf (Unmarshal fl q (Value.struct (pre ++ (fd, f) :: post)) fieldTag).obj pre.length
          = some f
      ∧ (Unmarshal fl q (Value.struct (pre ++ (fd, f) :: post)) fieldTag).fields
          = (Unmarshal fl q (Value.struct (pre ++ post)) fieldTag).fields := by
  have hg : (pre ++ (fd, f) :: post)[pre.length]? = some (fd, f) := by
    rw [List.getElem?_append_right (Nat.le_refl _)]
    simp
  refine ⟨fun t => ⟨?_, ?_⟩, ?_, ?_⟩
  · rw [fieldOf_Unmarshal_ptr, hg, Option.map_some', (h true).1]
  · simp [Unmarshal_ptr, (h true).2]
  · rw [fieldOf_Unmarshal_struct, hg, Option.map_some', (h false).1]
  · simp [Unmarshal_struct, (h false).2]

/-- C8: a field whose annotation under the tag name is exactly "-", or empty,
or absent, at any place of a struct (behind a pointer or passed by value),
has after the call the value it had before, and the returned list is the one
the struct without this field gives, whatever the values are. -/
theorem C8_annotation_excluded (fl : FloatOps) (q : Values) (fieldTag : String)
    (pre post : List (FieldInfo × Value)) (fd : FieldInfo) (f : Value)
    (h : fd.Tag.Get fieldTag = "-" ∨ fd.Tag.Get fieldTag = ""
      ∨ ∀ p, p ∈ fd.Tag → p.1 ≠ fieldTag) :
    (∀ t, fieldOf (Unmarshal fl q (Value.ptr t (some (Value.struct (pre ++ (fd, f) :: post))))
          fieldTag).obj pre.length = some f
        ∧ (Unmarshal fl q (Value.ptr t (some (Value.struct (pre ++ (fd, f) :: post))))
            fieldTag).fields
          = (Unmarshal fl q (Value.ptr t (some (Value.struct (pre ++ post)))) fieldTag).fields)
      ∧ fieldOf (Unmarshal fl q (Value.struct (pre ++ (fd, f) :: post)) fieldTag).obj pre.length
          = some f
      ∧ (Unmarshal fl q (Value.struct (pre ++ (fd, f) :: post)) fieldTag).fields
          = (Unmarshal fl q (Value.struct (pre ++ post)) fieldTag).fields := by
  apply skipped_field
  intro addr
  apply step_excluded
  rcases h with h | h | h
  · exact Or.inr h
  · exact Or.inl h
  · exact Or.inl (Get_absent fd.Tag fieldTag h)

/-- C8, witness: the StrBlock field of the test (annotation "-") between two
bound fields, with values that have the keys StrBlock, "-" and "". -/
theorem C8_annotation_excluded_witness :
    fieldOf (Unmarshal noFloat blockValues blockTarget "url").obj 1 = some (Value.string "old")
      ∧ (Unmarshal noFloat blockValues blockTarget "url").fields = ["str1", "int1"] :=
  ⟨((C8_annotation_excluded noFloat blockValues "url"
      [({ Name := "Str1", exported := true, Tag := [("url", "str1")] }, Value.string "")]
      [({ Name := "Int1", exported := true, Tag := [("url", "int1")] }, Value.int IntKind.Int 0)]
      { Name := "StrBlock", exported := true, Tag := [("url", "-")] } (Value.string "old")
      (Or.inl (by decide))).1 (GoType.struct [])).1, by rfl⟩

/-- C9, as the code has it: a field whose binding key is empty or "-" has
after the call the value it had before, and the returned list is the one the
struct without this field gives, when its whole annotation is empty or
exactly "-", or when the values have no key equal to that binding key. -/
theorem C9_excluded_key (fl : FloatOps) (q : Values) (fieldTag : String)
    (pre post : List (FieldInfo × Value)) (fd : FieldInfo) (f : Value)
    (_hk : bindingKey fd fieldTag = "" ∨ bindingKey fd fieldTag = "-")
    (hq : fd.Tag.Get fieldTag = "" ∨ fd.Tag.Get fieldTag = "-"
      ∨ q (bindingKey fd fieldTag) = none) :
    (∀ t, fieldOf (Unmarshal fl q (Value.ptr t (some (Value.struct (pre ++ (fd, f) :: post))))
          fieldTag).obj pre.length = some f
        ∧ (Unmarshal fl q (Value.ptr t (some (Value.struct (pre ++ (fd, f) :: post))))
            fieldTag).fields
          = (Unmarshal fl q (Value.ptr t (some (Value.struct (pre ++ post)))) fieldTag).fields)
      ∧ fieldOf (Unmarshal fl q (Value.struct (pre ++ (fd, f) :: post)) fieldTag).obj pre.length
          = some f
      ∧ (Unmarshal fl q (Value.struct (pre ++ (fd, f) :: post)) fieldTag).fields
          = (Unmarshal fl q (Value.struct (pre ++ post)) fieldTag).fields := by
  apply skipped_field
  intro addr
  rcases hq with h | h | h
  · exact step_excluded fl q fieldTag addr (fd, f) (Or.inl h)
  · exact step_excluded fl q fieldTag addr (fd, f) (Or.inr h)
  · exact step_absent fl q fieldTag addr (fd, f) h

/-- C9 refuted as stated: a string field annotated "-,omitempty" has the
binding key "-"; with values that have the key "-" the field is set and "-"
is in the returned list. -/
theorem C9_counterexample :
    bindingKey { Name := "Str", exported := true, Tag := [("url", "-,omitempty")] } "url" = "-"
      ∧ fieldOf (Unmarshal noFloat (Values.empty.Add "-" "x") dashTarget "url").obj 0
          = some (Value.string "x")
      ∧ (Unmarshal noFloat (Values.empty.Add "-" "x") dashTarget "url").fields = ["-"] :=
  ⟨by decide, by rfl, by rfl⟩

/-- C9, witness: the field annotated "-,omitempty", with values that have the
key Str and not the key "-". -/
theorem C9_excluded_key_witness :
    fieldOf (Unmarshal noFloat (Values.empty.Add "Str" "x") dashTarget "url").obj 0
        = some (Value.string "old")
      ∧ (Unmarshal noFloat (Values.empty.Add "Str" "x") dashTarget "url").fields = [] :=
  ⟨((C9_excluded_key noFloat (Values.empty.Add "Str" "x") "url" [] []
      { Name := "Str", exported := true, Tag := [("url", "-,omitempty")] } (Value.string "old")
      (Or.inr (by decide)) (Or.inr (Or.inr (by rfl)))).1 (GoType.struct [])).1, by rfl⟩

/-! ## The order of the returned list -/

theorem flatMap_stepKeys_sublist (fl : FloatOps) (q : Values) (fieldTag : String) (addr : Bool)
    (fs : List (FieldInfo × Value)) :
    (fs.flatMap (stepKeys fl q fieldTag addr)).Sublist
      (fs.map (fun p => bindingKey p.1 fieldTag)) := by
  induction fs with
  | nil => simp
  | cons p rest ih =>
    rw [List.flatMap_cons, List.map_cons]
    rcases stepKeys_cases fl q fieldTag addr p with h | ⟨h, _⟩
    · rw [h, List.nil_append]
      exact List.Sublist.cons _ ih
    · rw [h, List.singleton_append]
      exact List.Sublist.cons₂ _ ih

/-- C10: the returned list is a subsequence of the list of the binding keys
of the fields in declaration order, for a struct behind a pointer and for a
struct passed by value; for the record of the scenario it is the five keys
in declaration order. -/
theorem C10_declaration_order (fl : FloatOps) (q : Values) (fieldTag : String)
    (fs : List (FieldInfo × Value)) :
    (∀ t, ((Unmarshal fl q (Value.ptr t (some (Value.struct fs))) fieldTag).fields).Sublist
        (fs.map (fun p => bindingKey p.1 fieldTag)))
      ∧ ((Unmarshal fl q (Value.struct fs) fieldTag).fields).Sublist
        (fs.map (fun p => bindingKey p.1 fieldTag))
      ∧ (Unmarshal fl scenarioValues scenarioTarget "url").fields
        = ["str1", "str", "int1", "bool1", "badnum"] := by
  refine ⟨fun t => ?_, ?_, by rfl⟩
  · rw [Unmarshal_ptr]
    exact flatMap_stepKeys_sublist fl q fieldTag true fs
  · rw [Unmarshal_struct]
    exact flatMap_stepKeys_sublist fl q fieldTag false fs

/-! ## Kinds without a conversion -/

theorem setVal_unsupported (fl : FloatOps) (f : Value) (v : String)
    (h : supportedScalar f = false) : setVal fl f v = (f, false) := by
  cases f <;> simp [supportedScalar] at h <;> simp [setVal, h]

theorem setVal_snd (fl : FloatOps) (f : Value) (v : String) :
    (setVal fl f v).2 = supportedScalar f := by
  cases f with
  | int k x => simp only [setVal, supportedScalar]; cases ParseInt v 0 <;> rfl
  | uint k x =>
    by_cases hk : k = UintKind.Uintptr
    · simp [setVal, supportedScalar, hk]
    · simp only [setVal, supportedScalar, if_neg hk]
      cases ParseUint v 0 <;> simp [hk]
  | float k x => simp only [setVal, supportedScalar]; cases fl.ParseFloat v <;> rfl
  | _ => simp [setVal, supportedScalar]

/-- C11, the code at the failing input and where the claim holds: with a
map field NotSupported and a field Maps of type []map[string]bool, both keys
present, the list returned is empty and the error nil, and the map field is
as it was, but the field Maps, which held one map with an entry, is replaced
by a sequence of two nil maps. A field that is not a sequence and whose kind
has no conversion is, at any place of a struct, left as it was and adds
nothing to the list. -/
theorem C11_slice_of_maps_replaced (fl : FloatOps) :
    (Unmarshal fl ((((Values.empty.Add "notsupported" "def").Add "maps" "a").Add "maps" "b"))
        notSupportedTarget "url").fields = []
      ∧ (Unmarshal fl ((((Values.empty.Add "notsupported" "def").Add "maps" "a").Add "maps" "b"))
        notSupportedTarget "url").err = none
      ∧ fieldOf (Unmarshal fl
          ((((Values.empty.Add "notsupported" "def").Add "maps" "a").Add "maps" "b"))
          notSupportedTarget "url").obj 0
        = some (Value.map GoType.string GoType.bool
            (some [(Value.string "a", Value.bool true)]))
      ∧ fieldOf notSupportedTarget 1
        = some (Value.slice mapStringBool
            (some [Value.map GoType.string GoType.bool
              (some [(Value.string "a", Value.bool true)])]))
      ∧ fieldOf (Unmarshal fl
          ((((Values.empty.Add "notsupported" "def").Add "maps" "a").Add "maps" "b"))
          notSupportedTarget "url").obj 1
        = some (Value.slice mapStringBool
            (some [Value.map GoType.string GoType.bool none,
              Value.map GoType.string GoType.bool none]))
      ∧ (∀ (q : Values) (fieldTag : String) (t : GoType)
          (pre post : List (FieldInfo × Value)) (fd : FieldInfo) (f : Value),
          supportedScalar f = false → (∀ elem xs, f ≠ Value.slice elem xs) →
          fieldOf (Unmarshal fl q (Value.ptr t (some (Value.struct (pre ++ (fd, f) :: post))))
              fieldTag).obj pre.length = some f
            ∧ (Unmarshal fl q (Value.ptr t (some (Value.struct (pre ++ (fd, f) :: post))))
                fieldTag).fields
              = (Unmarshal fl q (Value.ptr t (some (Value.struct (pre ++ post))))
                  fieldTag).fields
            ∧ (Unmarshal fl q (Value.ptr t (some (Value.struct (pre ++ (fd, f) :: post))))
                fieldTag).err = none) := by
  refine ⟨by rfl, by rfl, by rfl, by rfl, by rfl, ?_⟩
  intro q fieldTag t pre post fd f hf hns
  have hstep : ∀ addr, stepVal fl q fieldTag addr (fd, f) = f
      ∧ stepKeys fl q fieldTag addr (fd, f) = [] := by
    intro addr
    cases hc : (addr && fd.exported) with
    | false => exact step_not_settable fl q fieldTag addr (fd, f) hc
    | true =>
      by_cases ht : fd.Tag.Get fieldTag = "" ∨ fd.Tag.Get fieldTag = "-"
      · exact step_excluded fl q fieldTag addr (fd, f) ht
      · cases hq : q (bindingKey fd fieldTag) with
        | none => exact step_absent fl q fieldTag addr (fd, f) hq
        | some vals =>
          have hb := fieldStep_bound fl q fieldTag fd f vals
            (fun h => ht (Or.inl h)) (fun h => ht (Or.inr h)) hq
          simp only [stepVal, stepKeys, hc, hb]
          cases f <;> simp_all [setVal_unsupported]
  have h := (skipped_field fl q fieldTag pre post fd f hstep).1 t
  exact ⟨h.1, h.2, by rw [Unmarshal_ptr]⟩

/-! ## Booleans -/

theorem ParseBool_getD (s : String) :
    (ParseBool s).getD false = decide (s ∈ trueLiterals) := by
  unfold ParseBool trueLiterals
  by_cases h1 : s = "1" ∨ s = "t" ∨ s = "T" ∨ s = "TRUE" ∨ s = "true" ∨ s = "True"
  · rw [if_pos h1]
    simpa using h1
  · rw [if_neg h1]
    have h2 : ¬ s ∈ ["1", "t", "T", "TRUE", "true", "True"] := by simpa using h1
    split <;> simp [h2]

/-- C12: setVal stores in a boolean true exactly when the source string is
one of "1", "t", "T", "TRUE", "true", "True", and false for every other
string, whatever the boolean held; so does Unmarshal for a bool field that
can be set, from the first value of its key, and for each element of a []bool
field; "yes" stores false over a previous true. -/
theorem C12_bool_literals (fl : FloatOps) (q : Values) (t : GoType)
    (fs : List (FieldInfo × Value)) (fieldTag : String) (i : Nat) (fd : FieldInfo)
    (f : Value) (vals : List String)
    (hi : fs[i]? = some (fd, f))
    (hexp : fd.exported = true)
    (ht1 : fd.Tag.Get fieldTag ≠ "") (ht2 : fd.Tag.Get fieldTag ≠ "-")
    (hq : q (bindingKey fd fieldTag) = some vals) :
    (∀ old s, setVal fl (Value.bool old) s = (Value.bool (decide (s ∈ trueLiterals)), true))
      ∧ (∀ old v vs, f = Value.bool old → vals = v :: vs →
          fieldOf (Unmarshal fl q (Value.ptr t (some (Value.struct fs))) fieldTag).obj i
            = some (Value.bool (decide (v ∈ trueLiterals))))
      ∧ (∀ old, f = Value.slice GoType.bool old →
          fieldOf (Unmarshal fl q (Value.ptr t (some (Value.struct fs))) fieldTag).obj i
            = some (Value.slice GoType.bool
                (some (vals.map (fun s => Value.bool (decide (s ∈ trueLiterals)))))))
      ∧ setVal fl (Value.bool true) "yes" = (Value.bool false, true)
      ∧ setVal fl (Value.bool true) "false" = (Value.bool false, true)
      ∧ setVal fl (Value.bool false) "t" = (Value.bool true, true) := by
  have hset : ∀ old s,
      setVal fl (Value.bool old) s = (Value.bool (decide (s ∈ trueLiterals)), true) := by
    intro old s
    simp only [setVal, ParseBool_getD]
  refine ⟨hset, ?_, ?_, by rfl, by rfl, by rfl⟩
  · intro old v vs hf hv
    subst hf hv
    have hs := step_scalar fl q fieldTag fd (Value.bool old) (v :: vs) hexp ht1 ht2 hq
      (by intro _ _ h; cases h)
    rw [Get_cons q _ v vs hq, hset] at hs
    rw [fieldOf_Unmarshal_ptr, hi, Option.map_some', hs.1]
  · intro old hf
    subst hf
    have hs := step_slice fl q fieldTag fd GoType.bool old vals hexp ht1 ht2 hq
    rw [if_neg (by simp [GoType.Kind]), sliceLoop_supported fl GoType.bool (by rfl)] at hs
    rw [fieldOf_Unmarshal_ptr, hi, Option.map_some', hs.1]
    congr 3
    apply List.map_congr_left
    intro s _
    simp only [scalarConv]
    have h := ParseBool_getD s
    cases hp : ParseBool s with
    | none => rw [hp] at h; simpa using h
    | some b => rw [hp] at h; cases b <;> simpa using h

/-- C12, witness: the Bools field of the test, with the values "true",
"false", "f", "t" and "yes". -/
theorem C12_bool_literals_witness :
    fieldOf (Unmarshal noFloat boolValues boolTarget "url").obj 1
      = some (Value.slice GoType.bool
          (some [Value.bool true, Value.bool false, Value.bool false, Value.bool true,
            Value.bool false])) :=
  (C12_bool_literals noFloat boolValues (GoType.struct [])
    [({ Name := "Bool1", exported := true, Tag := [("url", "bool1")] }, Value.bool true),
      ({ Name := "Bools", exported := true, Tag := [("url", "bool")] },
        Value.slice GoType.bool none)]
    "url" 1 { Name := "Bools", exported := true, Tag := [("url", "bool")] }
    (Value.slice GoType.bool none) ["true", "false", "f", "t", "yes"]
    (by rfl) (by rfl) (by decide) (by decide) (by rfl)).2.2.1 none rfl

/-! ## The modifiers of an annotation -/

theorem splitLoop_no_comma (a cur : List Char) (h : ',' ∉ a) :
    splitLoop a cur = [String.mk (cur.reverse ++ a)] := by
  induction a generalizing cur with
  | nil => simp [splitLoop]
  | cons c cs ih =>
    have hc : c ≠ ',' := fun e => h (by simp [e])
    have hcs : ',' ∉ cs := fun e => h (List.mem_cons_of_mem _ e)
    simp only [splitLoop, if_neg hc, ih (c :: cur) hcs]
    simp

theorem splitLoop_comma (a r cur : List Char) (h : ',' ∉ a) :
    splitLoop (a ++ ',' :: r) cur = String.mk (cur.reverse ++ a) :: splitLoop r [] := by
  induction a generalizing cur with
  | nil => simp [splitLoop]
  | cons c cs ih =>
    have hc : c ≠ ',' := fun e => h (by simp [e])
    have hcs : ',' ∉ cs := fun e => h (List.mem_cons_of_mem _ e)
    rw [List.cons_append, splitLoop, if_neg hc, ih (c :: cur) hcs]
    simp

theorem Split_key (k : String) (h : ',' ∉ k.data) : (Split k).headD "" = k := by
  simp [Split, splitLoop_no_comma k.data [] h]

theorem Split_key_modifiers (k m : String) (h : ',' ∉ k.data) :
    (Split (k ++ "," ++ m)).headD "" = k := by
  have hd : (k ++ "," ++ m).data = k.data ++ ',' :: m.data := by
    simp [String.data_append]
  simp [Split, hd, splitLoop_comma k.data m.data [] h]

/-- The step of a field depends on its static part through the annotation
under the tag name only, and on that through whether it is empty or "-" and
through its binding key. -/
theorem fieldStep_congr (fl : FloatOps) (q : Values) (fieldTag : String) (canSet : Bool)
    (fd fd2 : FieldInfo) (f : Value) (acc : List String)
    (hx : (fd.Tag.Get fieldTag = "" ∨ fd.Tag.Get fieldTag = "-")
      ↔ (fd2.Tag.Get fieldTag = "" ∨ fd2.Tag.Get fieldTag = "-"))
    (hk : bindingKey fd fieldTag = bindingKey fd2 fieldTag) :
    fieldStep fl q fieldTag canSet fd f acc = fieldStep fl q fieldTag canSet fd2 f acc := by
  simp only [bindingKey] at hk
  simp only [fieldStep, hk]
  by_cases h : fd.Tag.Get fieldTag = "" ∨ fd.Tag.Get fieldTag = "-"
  · rw [if_pos h, if_pos (hx.mp h)]
  · rw [if_neg h, if_neg (fun h2 => h (hx.mpr h2))]

/-- C13: for a key k that is not empty, not "-" and has no comma, and any
modifiers m, a field annotated "k,m" has the binding key k, and Unmarshal
gives the same list and the same field values as with the field annotated
"k", for a struct behind a pointer and for a struct passed by value. -/
theorem C13_modifiers_ignored (fl : FloatOps) (q : Values) (fieldTag : String)
    (pre post : List (FieldInfo × Value)) (fd fd2 : FieldInfo) (f : Value) (k m : String)
    (hk1 : k ≠ "") (hk2 : k ≠ "-") (hk3 : ',' ∉ k.data)
    (ha : fd.Tag.Get fieldTag = k ++ "," ++ m) (hb : fd2.Tag.Get fieldTag = k)
    (he : fd.exported = fd2.exported) :
    bindingKey fd fieldTag = k
      ∧ (∀ t,
          (Unmarshal fl q (Value.ptr t (some (Value.struct (pre ++ (fd, f) :: post))))
              fieldTag).fields
            = (Unmarshal fl q (Value.ptr t (some (Value.struct (pre ++ (fd2, f) :: post))))
              fieldTag).fields
          ∧ ∀ i,
            fieldOf (Unmarshal fl q (Value.ptr t (some (Value.struct (pre ++ (fd, f) :: post))))
                fieldTag).obj i
              = fieldOf (Unmarshal fl q
                  (Value.ptr t (some (Value.struct (pre ++ (fd2, f) :: post)))) fieldTag).obj i)
      ∧ (Unmarshal fl q (Value.struct (pre ++ (fd, f) :: post)) fieldTag).fields
          = (Unmarshal fl q (Value.struct (pre ++ (fd2, f) :: post)) fieldTag).fields
      ∧ (∀ i,
          fieldOf (Unmarshal fl q (Value.struct (pre ++ (fd, f) :: post)) fieldTag).obj i
            = fieldOf (Unmarshal fl q (Value.struct (pre ++ (fd2, f) :: post)) fieldTag).obj i) := by
  have hkey : bindingKey fd fieldTag = k := by
    rw [bindingKey, ha]
    exact Split_key_modifiers k m hk3
  have hkey2 : bindingKey fd2 fieldTag = k := by
    rw [bindingKey, hb]
    exact Split_key k hk3
  have hmem : ',' ∈ (k ++ "," ++ m).data := by simp [String.data_append]
  have hx : (fd.Tag.Get fieldTag = "" ∨ fd.Tag.Get fieldTag = "-")
      ↔ (fd2.Tag.Get fieldTag = "" ∨ fd2.Tag.Get fieldTag = "-") := by
    rw [ha, hb]
    constructor
    · rintro (h | h) <;> rw [h] at hmem <;> simp at hmem
    · rintro (h | h)
      · exact absurd h hk1
      · exact absurd h hk2
  have hstep : ∀ addr,
      stepVal fl q fieldTag addr (fd, f) = stepVal fl q fieldTag addr (fd2, f)
        ∧ stepKeys fl q fieldTag addr (fd, f) = stepKeys fl q fieldTag addr (fd2, f) := by
    intro addr
    simp only [stepVal, stepKeys, he]
    rw [fieldStep_congr fl q fieldTag _ fd fd2 f [] hx (by rw [hkey, hkey2])]
    exact ⟨rfl, rfl⟩
  have hvals : ∀ addr,
      (pre ++ (fd, f) :: post).map (stepVal fl q fieldTag addr)
        = (pre ++ (fd2, f) :: post).map (stepVal fl q fieldTag addr) := by
    intro addr
    simp [(hstep addr).1]
  refine ⟨hkey, fun t => ⟨?_, fun i => ?_⟩, ?_, fun i => ?_⟩
  · simp [Unmarshal_ptr, (hstep true).2]
  · rw [fieldOf_Unmarshal_ptr, fieldOf_Unmarshal_ptr, ← List.getElem?_map, ← List.getElem?_map,
      hvals true]
  · simp [Unmarshal_struct, (hstep false).2]
  · rw [fieldOf_Unmarshal_struct, fieldOf_Unmarshal_struct, ← List.getElem?_map,
      ← List.getElem?_map, hvals false]

/-- C13, witness: the OmitEmpty field of the test, annotated
"otherval,omitempty" under the tag name form, against the same field annotated
"otherval". -/
theorem C13_modifiers_ignored_witness :
    bindingKey { Name := "OmitEmpty", exported := true, Tag := [("form", "otherval,omitempty")] }
        "form" = "otherval"
      ∧ (Unmarshal noFloat (Values.empty.Add "otherval" "x")
            (Value.ptr (GoType.struct []) (some (Value.struct ([] ++
              ({ Name := "OmitEmpty", exported := true,
                  Tag := [("form", "otherval,omitempty")] }, Value.string "") :: []))))
            "form").fields
          = (Unmarshal noFloat (Values.empty.Add "otherval" "x")
            (Value.ptr (GoType.struct []) (some (Value.struct ([] ++
              ({ Name := "OmitEmpty", exported := true,
                  Tag := [("form", "otherval")] }, Value.string "") :: []))))
            "form").fields :=
  have h := C13_modifiers_ignored noFloat (Values.empty.Add "otherval" "x") "form" [] []
    { Name := "OmitEmpty", exported := true, Tag := [("form", "otherval,omitempty")] }
    { Name := "OmitEmpty", exported := true, Tag := [("form", "otherval")] }
    (Value.string "") "otherval" "omitempty" (by decide) (by decide) (by decide) (by decide)
    (by decide) rfl
  ⟨h.1, (h.2.1 (GoType.struct [])).1⟩

/-! ## A second run -/

theorem setVal_idem (fl : FloatOps) (f : Value) (v : String) :
    setVal fl (setVal fl f v).1 v = setVal fl f v := by
  cases f with
  | int k x => cases h : ParseInt v 0 <;> simp [setVal, h]
  | uint k x =>
    by_cases hk : k = UintKind.Uintptr
    · simp [setVal, hk]
    · cases h : ParseUint v 0 <;> simp [setVal, h, hk]
  | float k x => cases h : fl.ParseFloat v <;> simp [setVal, h]
  | _ => simp [setVal]

theorem setVal_not_slice (fl : FloatOps) (f : Value) (v : String)
    (h : ∀ elem xs, f ≠ Value.slice elem xs) :
    ∀ elem xs, (setVal fl f v).1 ≠ Value.slice elem xs := by
  intro elem xs
  cases f with
  | int k x => cases hp : ParseInt v 0 <;> simp [setVal, hp]
  | uint k x =>
    by_cases hk : k = UintKind.Uintptr
    · simp [setVal, hk]
    · cases hp : ParseUint v 0 <;> simp [setVal, hp, hk]
  | float k x => cases hp : fl.ParseFloat v <;> simp [setVal, hp]
  | slice e ys => exact absurd rfl (h e ys)
  | _ => simp [setVal]

/-- One field: the step on the value the step left gives that value and the
same contribution again. -/
theorem step_idem (fl : FloatOps) (q : Values) (fieldTag : String) (addr : Bool)
    (p : FieldInfo × Value) :
    stepVal fl q fieldTag addr (p.1, stepVal fl q fieldTag addr p)
        = stepVal fl q fieldTag addr p
      ∧ stepKeys fl q fieldTag addr (p.1, stepVal fl q fieldTag addr p)
        = stepKeys fl q fieldTag addr p := by
  obtain ⟨fd, f⟩ := p
  cases hc : (addr && fd.exported) with
  | false =>
    have h1 := step_not_settable fl q fieldTag addr (fd, f) hc
    have h2 := step_not_settable fl q fieldTag addr (fd, stepVal fl q fieldTag addr (fd, f)) hc
    exact ⟨by rw [h2.1], by rw [h2.2, h1.2]⟩
  | true =>
    have ha : addr = true := by cases addr <;> simp_all
    have hexp : fd.exported = true := by cases addr <;> simp_all
    subst ha
    by_cases ht : fd.Tag.Get fieldTag = "" ∨ fd.Tag.Get fieldTag = "-"
    · have h1 := step_excluded fl q fieldTag true (fd, f) ht
      have h2 := step_excluded fl q fieldTag true (fd, stepVal fl q fieldTag true (fd, f)) ht
      exact ⟨by rw [h2.1], by rw [h2.2, h1.2]⟩
    · have ht1 : fd.Tag.Get fieldTag ≠ "" := fun h => ht (Or.inl h)
      have ht2 : fd.Tag.Get fieldTag ≠ "-" := fun h => ht (Or.inr h)
      cases hq : q (bindingKey fd fieldTag) with
      | none =>
        have h1 := step_absent fl q fieldTag true (fd, f) hq
        have h2 := step_absent fl q fieldTag true (fd, stepVal fl q fieldTag true (fd, f)) hq
        exact ⟨by rw [h2.1], by rw [h2.2, h1.2]⟩
      | some vals =>
        by_cases hsl : ∃ elem xs, f = Value.slice elem xs
        · obtain ⟨elem, xs, rfl⟩ := hsl
          have h1 := step_slice fl q fieldTag fd elem xs vals hexp ht1 ht2 hq
          by_cases hb : elem.Kind = Kind.Uint8
          · rw [if_pos hb, if_pos hb] at h1
            have h2 := step_slice fl q fieldTag fd elem
              (some (bytesOf (q.Get (bindingKey fd fieldTag)))) vals hexp ht1 ht2 hq
            rw [if_pos hb, if_pos hb] at h2
            rw [h1.1, h1.2, h2.1, h2.2]
            exact ⟨rfl, rfl⟩
          · rw [if_neg hb, if_neg hb] at h1
            have h2 := step_slice fl q fieldTag fd elem
              (some (sliceLoop fl (zero elem) vals false).1) vals hexp ht1 ht2 hq
            rw [if_neg hb, if_neg hb] at h2
            rw [h1.1, h1.2, h2.1, h2.2]
            exact ⟨rfl, rfl⟩
        · have hns : ∀ elem xs, f ≠ Value.slice elem xs :=
            fun elem xs h => hsl ⟨elem, xs, h⟩
          have h1 := step_scalar fl q fieldTag fd f vals hexp ht1 ht2 hq hns
          have h2 := step_scalar fl q fieldTag fd
            (setVal fl f (q.Get (bindingKey fd fieldTag))).1 vals hexp ht1 ht2 hq
            (setVal_not_slice fl f _ hns)
          rw [setVal_idem] at h2
          rw [h1.1, h1.2, h2.1, h2.2]
          exact ⟨rfl, rfl⟩

/-- C14: for a struct behind a pointer and for a struct passed by value,
Unmarshal on the target a first run left gives the same results as the first
run: the same list, a nil error, and the target as the first run left it. -/
theorem C14_second_run (fl : FloatOps) (q : Values) (fieldTag : String)
    (fs : List (FieldInfo × Value)) :
    (∀ t,
        Unmarshal fl q
            (Unmarshal fl q (Value.ptr t (some (Value.struct fs))) fieldTag).obj fieldTag
          = Unmarshal fl q (Value.ptr t (some (Value.struct fs))) fieldTag)
      ∧ Unmarshal fl q (Unmarshal fl q (Value.struct fs) fieldTag).obj fieldTag
          = Unmarshal fl q (Value.struct fs) fieldTag := by
  have hkeys : ∀ addr,
      (fs.map (fun p => (p.1, stepVal fl q fieldTag addr p))).flatMap
          (stepKeys fl q fieldTag addr)
        = fs.flatMap (stepKeys fl q fieldTag addr) := by
    intro addr
    induction fs with
    | nil => rfl
    | cons p rest ih =>
      simp only [List.map_cons, List.flatMap_cons, ih, (step_idem fl q fieldTag addr p).2]
  have hmap : ∀ addr,
      (fs.map (fun p => (p.1, stepVal fl q fieldTag addr p))).map
          (fun p => (p.1, stepVal fl q fieldTag addr p))
        = fs.map (fun p => (p.1, stepVal fl q fieldTag addr p)) := by
    intro addr
    rw [List.map_map]
    apply List.map_congr_left
    intro p _
    simp only [Function.comp, (step_idem fl q fieldTag addr p).1]
  refine ⟨fun t => ?_, ?_⟩
  · rw [Unmarshal_ptr, Unmarshal_ptr, hmap true, hkeys true]
  · rw [Unmarshal_struct, Unmarshal_struct, hmap false, hkeys false]

/-! ## The width of an integer field -/

theorem digitChar_facts (d : Nat) (h : d < 10) :
    '0' ≤ Nat.digitChar d ∧ Nat.digitChar d ≤ '9' ∧ (Nat.digitChar d).toNat - '0'.toNat = d
      ∧ Nat.digitChar d ≠ '+' ∧ Nat.digitChar d ≠ '-' := by
  interval_cases d <;> decide

theorem digitsLoop_decimal (ds : List Nat) (n : Nat) (hlt : ∀ d, d ∈ ds → d < 10) :
    digitsLoop (ds.map Nat.digitChar) n
      = some (n * 10 ^ ds.length + Nat.ofDigits 10 ds.reverse) := by
  induction ds generalizing n with
  | nil => simp [digitsLoop]
  | cons d rest ih =>
    have hd := digitChar_facts d (hlt d (List.mem_cons_self _ _))
    have hr : ∀ x, x ∈ rest → x < 10 := fun x hx => hlt x (List.mem_cons_of_mem _ hx)
    rw [List.map_cons, digitsLoop, if_pos ⟨hd.1, hd.2.1⟩, hd.2.2.1, ih _ hr]
    simp only [List.reverse_cons, Nat.ofDigits_append, Nat.ofDigits_singleton, List.length_reverse,
      List.length_cons]
    congr 1
    ring

theorem wrapInt_spec (k : IntKind) (v : Int) :
    wrapInt k.bits v % 2 ^ k.bits = v % 2 ^ k.bits
      ∧ -(2 ^ (k.bits - 1)) ≤ wrapInt k.bits v ∧ wrapInt k.bits v < 2 ^ (k.bits - 1) := by
  cases k <;> simp only [IntKind.bits, intSize, wrapInt] <;> norm_num <;> omega
theorem wrapInt_fits (k : IntKind) (v : Int) (h1 : -(2 ^ (k.bits - 1)) ≤ v)
    (h2 : v < 2 ^ (k.bits - 1)) : wrapInt k.bits v = v := by
  cases k <;> simp only [IntKind.bits, intSize, wrapInt] at * <;> norm_num at * <;> omega
theorem ParseUint_decimal (ds : List Nat) (hne : ds ≠ []) (hlt : ∀ d, d ∈ ds → d < 10) :
    ParseUint (decimal ds) 0
      = if decimalValue ds < 2 ^ 64 then some (decimalValue ds) else none := by
  have hd := digitsLoop_decimal ds 0 hlt
  rw [Nat.zero_mul, Nat.zero_add] at hd
  have hm : ds.map Nat.digitChar ≠ [] := by simpa using hne
  simp only [ParseUint, decimal, decimalValue, if_neg hm, hd, intSize]
  rfl

theorem ParseInt_decimal (ds : List Nat) (hne : ds ≠ []) (hlt : ∀ d, d ∈ ds → d < 10) :
    ParseInt (decimal ds) 0
      = if decimalValue ds < 2 ^ 63 then some (decimalValue ds : Int) else none := by
  have hd := digitsLoop_decimal ds 0 hlt
  rw [Nat.zero_mul, Nat.zero_add] at hd
  cases ds with
  | nil => exact absurd rfl hne
  | cons d rest =>
    have hc := digitChar_facts d (hlt d (List.mem_cons_self _ _))
    rw [List.map_cons] at hd
    simp only [ParseInt, decimal, decimalValue, List.map_cons, hc.2.2.2.1, hc.2.2.2.2, or_self,
      if_false, hd, intSize, decide_False, if_neg (List.cons_ne_nil _ _)]
    generalize Nat.ofDigits 10 (d :: rest).reverse = N
    norm_num
    split_ifs <;> first | rfl | omega

theorem ParseInt_plus (ds : List Nat) (hne : ds ≠ []) (hlt : ∀ d, d ∈ ds → d < 10) :
    ParseInt (String.mk ('+' :: (decimal ds).data)) 0
      = if decimalValue ds < 2 ^ 63 then some (decimalValue ds : Int) else none := by
  have hd := digitsLoop_decimal ds 0 hlt
  rw [Nat.zero_mul, Nat.zero_add] at hd
  have hm : ds.map Nat.digitChar ≠ [] := by simpa using hne
  have hpm : ('+' : Char) ≠ '-' := by decide
  simp only [ParseInt, decimal, decimalValue, true_or, if_true, if_neg hm, hd, intSize, hpm,
    decide_False, if_false]
  generalize Nat.ofDigits 10 ds.reverse = N
  norm_num
  split_ifs <;> first | rfl | omega

theorem ParseInt_minus (ds : List Nat) (hne : ds ≠ []) (hlt : ∀ d, d ∈ ds → d < 10) :
    ParseInt (String.mk ('-' :: (decimal ds).data)) 0
      = if decimalValue ds ≤ 2 ^ 63 then some (-(decimalValue ds : Int)) else none := by
  have hd := digitsLoop_decimal ds 0 hlt
  rw [Nat.zero_mul, Nat.zero_add] at hd
  have hm : ds.map Nat.digitChar ≠ [] := by simpa using hne
  simp only [ParseInt, decimal, decimalValue, or_true, if_true, if_neg hm, hd, intSize,
    decide_True]
  generalize Nat.ofDigits 10 ds.reverse = N
  norm_num
  split_ifs <;> first | rfl | omega

/-- C15: for a decimal numeral with the digits ds, of value n, setVal stores
in a signed integer field of 8, 16, 32 or 64 bits (int has 64) the value n,
or -n after a minus sign, reduced to the width of the field: the integer of
the signed range of the width that is congruent to it modulo 2^width, which
is the value itself when it fits; in an unsigned field it stores n modulo
2^width. This is so when the value is in the 64-bit range; outside of it the
field keeps what it held. "300" in an int8 field gives 44. -/
theorem C15_integer_width (fl : FloatOps) (ds : List Nat) (hne : ds ≠ [])
    (hlt : ∀ d, d ∈ ds → d < 10) :
    (∀ k old, decimalValue ds < 2 ^ 63 →
        setVal fl (Value.int k old) (decimal ds)
          = (Value.int k (wrapInt k.bits (decimalValue ds)), true))
      ∧ (∀ k old, decimalValue ds < 2 ^ 63 →
        setVal fl (Value.int k old) (String.mk ('+' :: (decimal ds).data))
          = (Value.int k (wrapInt k.bits (decimalValue ds)), true))
      ∧ (∀ k old, decimalValue ds ≤ 2 ^ 63 →
        setVal fl (Value.int k old) (String.mk ('-' :: (decimal ds).data))
          = (Value.int k (wrapInt k.bits (-(decimalValue ds : Int))), true))
      ∧ (∀ k old, 2 ^ 63 ≤ decimalValue ds →
        setVal fl (Value.int k old) (decimal ds) = (Value.int k old, true))
      ∧ (∀ k old, 2 ^ 63 < decimalValue ds →
        setVal fl (Value.int k old) (String.mk ('-' :: (decimal ds).data))
          = (Value.int k old, true))
      ∧ (∀ k old, k ≠ UintKind.Uintptr → decimalValue ds < 2 ^ 64 →
        setVal fl (Value.uint k old) (decimal ds)
          = (Value.uint k (decimalValue ds % 2 ^ k.bits), true))
      ∧ (∀ k old, k ≠ UintKind.Uintptr → 2 ^ 64 ≤ decimalValue ds →
        setVal fl (Value.uint k old) (decimal ds) = (Value.uint k old, true))
      ∧ (∀ (k : IntKind) (v : Int),
          wrapInt k.bits v % 2 ^ k.bits = v % 2 ^ k.bits
            ∧ -(2 ^ (k.bits - 1)) ≤ wrapInt k.bits v ∧ wrapInt k.bits v < 2 ^ (k.bits - 1))
      ∧ (∀ (k : IntKind) (v : Int), -(2 ^ (k.bits - 1)) ≤ v → v < 2 ^ (k.bits - 1) →
          wrapInt k.bits v = v)
      ∧ (∀ (k : UintKind) (n : Nat), n < 2 ^ k.bits → wrapUint k.bits n = n)
      ∧ decimal [3, 0, 0] = "300"
      ∧ setVal fl (Value.int IntKind.Int8 0) "300" = (Value.int IntKind.Int8 44, true)
      ∧ setVal fl (Value.uint UintKind.Uint16 0) "123" = (Value.uint UintKind.Uint16 123, true) := by
  have hp := ParseInt_decimal ds hne hlt
  have hpl := ParseInt_plus ds hne hlt
  have hm := ParseInt_minus ds hne hlt
  have hu := ParseUint_decimal ds hne hlt
  refine ⟨?_, ?_, ?_, ?_, ?_, ?_, ?_, wrapInt_spec, wrapInt_fits, ?_, by decide, by rfl, by rfl⟩
  · intro k old h
    rw [if_pos h] at hp
    simp [setVal, hp]
  · intro k old h
    rw [if_pos h] at hpl
    simp [setVal, hpl]
  · intro k old h
    rw [if_pos h] at hm
    simp [setVal, hm]
  · intro k old h
    rw [if_neg (Nat.not_lt.mpr h)] at hp
    simp [setVal, hp]
  · intro k old h
    rw [if_neg (Nat.not_le.mpr h)] at hm
    simp [setVal, hm]
  · intro k old hk h
    rw [if_pos h] at hu
    simp [setVal, hu, hk, wrapUint]
  · intro k old hk h
    rw [if_neg (Nat.not_lt.mpr h)] at hu
    simp [setVal, hu, hk]
  · intro k n h
    exact Nat.mod_eq_of_lt h

/-- C15, witness: the digits 3, 0, 0 and an int8 field. -/
theorem C15_integer_width_witness :
    setVal noFloat (Value.int IntKind.Int8 0) (decimal [3, 0, 0])
      = (Value.int IntKind.Int8 (wrapInt IntKind.Int8.bits (decimalValue [3, 0, 0])), true) :=
  (C15_integer_width noFloat [3, 0, 0] (by decide) (by decide)).1 IntKind.Int8 0
    (by norm_num [decimalValue, Nat.ofDigits])

/-! ## Fields that cannot be set -/

/-- C16: a struct passed by value comes back as it was, with an empty list
and a nil error, whatever the values are; an unexported field of a struct
behind a pointer has after the call the value it had before, and the list is
the one the struct without this field gives. -/
theorem C16_not_settable (fl : FloatOps) (q : Values) (fieldTag : String) (t : GoType)
    (pre post : List (FieldInfo × Value)) (fd : FieldInfo) (f : Value)
    (hexp : fd.exported = false) :
    (∀ fs, (Unmarshal fl q (Value.struct fs) fieldTag).fields = []
        ∧ (Unmarshal fl q (Value.struct fs) fieldTag).err = none
        ∧ (Unmarshal fl q (Value.struct fs) fieldTag).obj = Value.struct fs)
      ∧ fieldOf (Unmarshal fl q (Value.ptr t (some (Value.struct (pre ++ (fd, f) :: post))))
          fieldTag).obj pre.length = some f
      ∧ (Unmarshal fl q (Value.ptr t (some (Value.struct (pre ++ (fd, f) :: post))))
          fieldTag).fields
        = (Unmarshal fl q (Value.ptr t (some (Value.struct (pre ++ post)))) fieldTag).fields := by
  refine ⟨fun fs => ?_, ?_⟩
  · have hv : fs.map (fun p => (p.1, stepVal fl q fieldTag false p)) = fs := by
      conv => rhs; rw [← List.map_id fs]
      apply List.map_congr_left
      intro p _
      rw [(step_not_settable fl q fieldTag false p (by simp)).1]
      rfl
    have hk : fs.flatMap (stepKeys fl q fieldTag false) = [] := by
      rw [List.flatMap_eq_nil_iff]
      intro p _
      exact (step_not_settable fl q fieldTag false p (by simp)).2
    rw [Unmarshal_struct, hv, hk]
    exact ⟨rfl, rfl, rfl⟩
  · have h := (skipped_field fl q fieldTag pre post fd f
      (fun addr => step_not_settable fl q fieldTag addr (fd, f) (by simp [hexp]))).1 t
    exact h

/-- C16, witness: the unexported field secret, whose key is in the values. -/
theorem C16_not_settable_witness :
    fieldOf (Unmarshal noFloat unexportedValues unexportedTarget "url").obj 1
        = some (Value.string "old")
      ∧ (Unmarshal noFloat unexportedValues unexportedTarget "url").fields = ["str1", "int1"] :=
  ⟨(C16_not_settable noFloat unexportedValues "url" (GoType.struct [])
      [({ Name := "Str1", exported := true, Tag := [("url", "str1")] }, Value.string "")]
      [({ Name := "Int1", exported := true, Tag := [("url", "int1")] }, Value.int IntKind.Int 0)]
      { Name := "secret", exported := false, Tag := [("url", "secret")] } (Value.string "old")
      rfl).2.1, by rfl⟩

/-! ## The returned list, exactly -/

theorem supportedScalar_zero (elem : GoType) :
    supportedScalar (zero elem) = supportedType elem := by
  cases elem <;> simp [zero, supportedScalar, supportedType]

theorem sliceLoop_snd (fl : FloatOps) (z : Value) (vs : List String) (b : Bool) :
    (sliceLoop fl z vs b).2 = if vs.isEmpty then b else supportedScalar z := by
  induction vs generalizing b with
  | nil => simp [sliceLoop]
  | cons v rest ih =>
    simp only [sliceLoop, ih, setVal_snd]
    cases rest <;> simp

/-- What a field of a struct behind a pointer contributes: its binding key
when it is reported, nothing otherwise. -/
theorem stepKeys_reported (fl : FloatOps) (q : Values) (fieldTag : String)
    (p : FieldInfo × Value) :
    stepKeys fl q fieldTag true p
      = if reportedField q fieldTag p then [bindingKey p.1 fieldTag] else [] := by
  obtain ⟨fd, f⟩ := p
  cases hexp : fd.exported with
  | false =>
    rw [(step_not_settable fl q fieldTag true (fd, f) (by simp [hexp])).2]
    simp [reportedField, hexp]
  | true =>
    by_cases ht : fd.Tag.Get fieldTag = "" ∨ fd.Tag.Get fieldTag = "-"
    · rw [(step_excluded fl q fieldTag true (fd, f) ht).2]
      rcases ht with h | h <;> simp [reportedField, h]
    · have ht1 : fd.Tag.Get fieldTag ≠ "" := fun h => ht (Or.inl h)
      have ht2 : fd.Tag.Get fieldTag ≠ "-" := fun h => ht (Or.inr h)
      cases hq : q (bindingKey fd fieldTag) with
      | none =>
        rw [(step_absent fl q fieldTag true (fd, f) hq).2]
        simp [reportedField, hq]
      | some vals =>
        by_cases hsl : ∃ elem xs, f = Value.slice elem xs
        · obtain ⟨elem, xs, rfl⟩ := hsl
          rw [(step_slice fl q fieldTag fd elem xs vals hexp ht1 ht2 hq).2, sliceLoop_snd,
            supportedScalar_zero]
          simp only [reportedField, hexp, ht1, ht2, hq]
          by_cases hb : elem.Kind = Kind.Uint8
          · simp [hb]
          · cases vals <;> simp [hb, ht1, ht2]
        · have hns : ∀ elem xs, f ≠ Value.slice elem xs :=
            fun elem xs h => hsl ⟨elem, xs, h⟩
          rw [(step_scalar fl q fieldTag fd f vals hexp ht1 ht2 hq hns).2, setVal_snd]
          simp only [reportedField, hexp, ht1, ht2, hq]
          cases f <;> simp_all

/-- C17: for a struct behind a pointer the returned list is exactly the list
of the binding keys of the reported fields, in declaration order, a key once
for each field that has it. In the example two fields share the key name,
which is there twice; the []byte field, the []int field whose key has an
empty list of values, and the map field add nothing. -/
theorem C17_returned_list (fl : FloatOps) (q : Values) (fieldTag : String) (t : GoType)
    (fs : List (FieldInfo × Value)) :
    (Unmarshal fl q (Value.ptr t (some (Value.struct fs))) fieldTag).fields
        = (fs.filter (reportedField q fieldTag)).map (fun p => bindingKey p.1 fieldTag)
      ∧ (Unmarshal fl sharedKeyValues sharedKeyTarget "url").fields = ["name", "name"]
      ∧ fieldOf (Unmarshal fl sharedKeyValues sharedKeyTarget "url").obj 1
          = some (Value.slice (GoType.uint UintKind.Uint8) (some (bytesOf "b")))
      ∧ fieldOf (Unmarshal fl sharedKeyValues sharedKeyTarget "url").obj 2
          = some (Value.slice (GoType.int IntKind.Int) (some [])) := by
  refine ⟨?_, by rfl, by rfl, by rfl⟩
  rw [Unmarshal_ptr]
  show fs.flatMap (stepKeys fl q fieldTag true) = _
  induction fs with
  | nil => rfl
  | cons p rest ih =>
    rw [List.flatMap_cons, ih, stepKeys_reported, List.filter_cons]
    cases reportedField q fieldTag p <;> simp

/-! ## Scalar fields and the first value -/

theorem Get_nil (q : Values) (key : String) (h : q key = some []) : q.Get key = "" := by
  simp [Values.Get, h]

theorem supportedScalar_not_slice (f : Value) (h : supportedScalar f = true) :
    ∀ elem xs, f ≠ Value.slice elem xs := by
  intro elem xs e
  rw [e] at h
  simp [supportedScalar] at h

/-- C18: a scalar field of a supported kind that can be set and whose key is
in the values is after the call what setVal makes of its value and the first
value of the key, and the key is in the returned list; two sets of values
with the same first value for the key give the same field; when the key has
an empty list of values the source string is the empty string, with which a
string field becomes "", a bool field false, and an integer field keeps its
value, as does a float field when the library refuses the empty string. -/
theorem C18_first_value_only (fl : FloatOps) (q : Values) (t : GoType)
    (fs : List (FieldInfo × Value)) (fieldTag : String) (i : Nat)
    (fd : FieldInfo) (f : Value)
    (hi : fs[i]? = some (fd, f))
    (hexp : fd.exported = true)
    (ht1 : fd.Tag.Get fieldTag ≠ "") (ht2 : fd.Tag.Get fieldTag ≠ "-")
    (hsup : supportedScalar f = true) :
    (∀ v vs, q (bindingKey fd fieldTag) = some (v :: vs) →
        fieldOf (Unmarshal fl q (Value.ptr t (some (Value.struct fs))) fieldTag).obj i
            = some (setVal fl f v).1
          ∧ bindingKey fd fieldTag
            ∈ (Unmarshal fl q (Value.ptr t (some (Value.struct fs))) fieldTag).fields)
      ∧ (∀ (q2 : Values) v vs vs2, q (bindingKey fd fieldTag) = some (v :: vs) →
          q2 (bindingKey fd fieldTag) = some (v :: vs2) →
          fieldOf (Unmarshal fl q (Value.ptr t (some (Value.struct fs))) fieldTag).obj i
            = fieldOf (Unmarshal fl q2 (Value.ptr t (some (Value.struct fs))) fieldTag).obj i)
      ∧ (q (bindingKey fd fieldTag) = some [] →
        fieldOf (Unmarshal fl q (Value.ptr t (some (Value.struct fs))) fieldTag).obj i
            = some (setVal fl f "").1
          ∧ bindingKey fd fieldTag
            ∈ (Unmarshal fl q (Value.ptr t (some (Value.struct fs))) fieldTag).fields)
      ∧ (∀ old, setVal fl (Value.string old) "" = (Value.string "", true))
      ∧ (∀ old, setVal fl (Value.bool old) "" = (Value.bool false, true))
      ∧ (∀ k old, setVal fl (Value.int k old) "" = (Value.int k old, true))
      ∧ (∀ k old, k ≠ UintKind.Uintptr →
          setVal fl (Value.uint k old) "" = (Value.uint k old, true))
      ∧ (fl.ParseFloat "" = none →
          ∀ k old, setVal fl (Value.float k old) "" = (Value.float k old, true)) := by
  have hns := supportedScalar_not_slice f hsup
  have hfield : ∀ (q : Values) (vals : List String), q (bindingKey fd fieldTag) = some vals →
      fieldOf (Unmarshal fl q (Value.ptr t (some (Value.struct fs))) fieldTag).obj i
          = some (setVal fl f (q.Get (bindingKey fd fieldTag))).1
        ∧ bindingKey fd fieldTag
          ∈ (Unmarshal fl q (Value.ptr t (some (Value.struct fs))) fieldTag).fields := by
    intro q vals hq
    have hs := step_scalar fl q fieldTag fd f vals hexp ht1 ht2 hq hns
    refine ⟨?_, ?_⟩
    · rw [fieldOf_Unmarshal_ptr, hi, Option.map_some', hs.1]
    · apply mem_fields_ptr fl q t fs fieldTag i (fd, f) _ hi
      rw [hs.2, setVal_snd, hsup]
      simp
  refine ⟨?_, ?_, ?_, ?_, ?_, ?_, ?_, ?_⟩
  · intro v vs hq
    have h := hfield q (v :: vs) hq
    rw [Get_cons q _ v vs hq] at h
    exact h
  · intro q2 v vs vs2 hq hq2
    rw [(hfield q (v :: vs) hq).1, (hfield q2 (v :: vs2) hq2).1, Get_cons q _ v vs hq,
      Get_cons q2 _ v vs2 hq2]
  · intro hq
    have h := hfield q [] hq
    rw [Get_nil q _ hq] at h
    exact h
  · intro old
    simp [setVal]
  · intro old
    rfl
  · intro k old
    rfl
  · intro k old hk
    simp [setVal, hk, ParseUint]
  · intro h k old
    simp [setVal, h]

/-- C18, witness: the Str1 field holding "old" and the key str1 with the
values "a" and "b". -/
theorem C18_first_value_only_witness :
    fieldOf (Unmarshal noFloat ((Values.empty.Add "str1" "a").Add "str1" "b") str1Target
        "url").obj 0
        = some (setVal noFloat (Value.string "old") "a").1
      ∧ bindingKey { Name := "Str1", exported := true, Tag := [("url", "str1")] } "url"
        ∈ (Unmarshal noFloat ((Values.empty.Add "str1" "a").Add "str1" "b") str1Target
            "url").fields :=
  (C18_first_value_only noFloat ((Values.empty.Add "str1" "a").Add "str1" "b") _ _ "url" 0
    { Name := "Str1", exported := true, Tag := [("url", "str1")] } (Value.string "old")
    (by rfl) (by rfl) (by decide) (by decide) (by rfl)).1 "a" ["b"] (by rfl)

end Querytostruct
